import Mathlib

/-!
Verification development for the readgedcom library (readgedcom.py).

The Python source is shallowly embedded: strings are manipulated as
`List Char` by structural recursion (so that all definitions reduce in the
kernel), Python dicts of heterogeneous records become Lean structures with
`Option` fields marking key presence, and code that can raise `ValueError`
returns `Except GedErr`.  Definitions follow the source function by
function and keep the source's names.
-/

/-! ## Character and string primitives (Python `str` semantics on `List Char`) -/

/-- ASCII lowercase of one character, as Python `str.lower` acts on ASCII. -/
def chLower (c : Char) : Char :=
  if 65 ≤ c.toNat ∧ c.toNat ≤ 90 then Char.ofNat (c.toNat + 32) else c

/-- Python `str.lower` (the inputs of interest are ASCII). -/
def lcLower (s : List Char) : List Char := s.map chLower

/-- Python whitespace recognised by `str.strip` / `str.split`. -/
def isWsC (c : Char) : Bool :=
  c = ' ' ∨ c = '\t' ∨ c = '\n' ∨ c = '\x0d' ∨ c = '\x0b' ∨ c = '\x0c'

/-- Python `str.strip()`. -/
def lcTrim (s : List Char) : List Char :=
  ((s.dropWhile isWsC).reverse.dropWhile isWsC).reverse

/-- Does the second list start with the first? -/
def lcBegins : List Char → List Char → Bool
  | [], _ => true
  | _ :: _, [] => false
  | p :: ps, c :: cs => p = c && lcBegins ps cs

/-- Does the second list end with the first (Python `str.endswith`)? -/
def lcEnds (p s : List Char) : Bool := lcBegins p.reverse s.reverse

/-- Python `p in s` substring containment. -/
def lcHasSub (p : List Char) : List Char → Bool
  | [] => lcBegins p []
  | c :: cs => lcBegins p (c :: cs) || lcHasSub p cs

/-- Fuel-driven worker for `lcReplace`; the fuel bounds the number of
consumed characters, so `s.length` is always enough. -/
def lcReplaceFuel (old new : List Char) : Nat → List Char → List Char
  | _, [] => []
  | 0, s => s
  | fuel + 1, c :: cs =>
    if lcBegins old (c :: cs) then
      new ++ lcReplaceFuel old new fuel ((c :: cs).drop old.length)
    else
      c :: lcReplaceFuel old new fuel cs

/-- Python `s.replace(old, new)` for a non-empty `old` (every use in the
source has a non-empty pattern; an empty `old` returns `s` unchanged). -/
def lcReplace (s old new : List Char) : List Char :=
  if old = [] then s else lcReplaceFuel old new s.length s

/-- Fuel-driven worker for `lcSplitOn`. -/
def lcSplitOnFuel (sep : List Char) : Nat → List Char → List Char → List (List Char)
  | 0, s, cur => [cur ++ s]
  | _ + 1, [], cur => [cur]
  | fuel + 1, c :: cs, cur =>
    if lcBegins sep (c :: cs) then
      cur :: lcSplitOnFuel sep fuel ((c :: cs).drop sep.length) []
    else
      lcSplitOnFuel sep fuel cs (cur ++ [c])

/-- Python `s.split(sep)` for a non-empty separator: keeps empty fields. -/
def lcSplitOn (s sep : List Char) : List (List Char) :=
  if sep = [] then [s] else lcSplitOnFuel sep (s.length + 1) s []

/-- Worker for `lcSplitWs` carrying the (reversed) current token. -/
def lcSplitWsGo : List Char → List Char → List (List Char)
  | [], cur => if cur = [] then [] else [cur.reverse]
  | c :: cs, cur =>
    if isWsC c then
      (if cur = [] then lcSplitWsGo cs [] else cur.reverse :: lcSplitWsGo cs [])
    else
      lcSplitWsGo cs (c :: cur)

/-- Python `s.split()` with no argument: split on whitespace runs,
dropping empty fields. -/
def lcSplitWs (s : List Char) : List (List Char) := lcSplitWsGo s []

/-- Python `s.split(' ', 2)`: at most two splits on a single space,
keeping empty fields, with the tail kept verbatim. -/
def lcSplitMax2 (s : List Char) : List (List Char) :=
  match lcSpanNoSpace s with
  | (t0, rest0) =>
    match rest0 with
    | [] => [t0]
    | _ :: rest1 =>
      match lcSpanNoSpace rest1 with
      | (t1, rest2) =>
        match rest2 with
        | [] => [t0, t1]
        | _ :: rest3 => [t0, t1, rest3]
where
  /-- Split at the first space character (the separator is dropped from
  neither side; the caller peels it). -/
  lcSpanNoSpace (s : List Char) : List Char × List Char :=
    (s.takeWhile (fun c => ¬ (c = ' ')), s.dropWhile (fun c => ¬ (c = ' ')))

/-- Is this character an ASCII decimal digit? -/
def isDigitC (c : Char) : Bool := 48 ≤ c.toNat ∧ c.toNat ≤ 57

/-- Value of a digit-only character list (callers guard with
`string_like_int`, matching Python `int(s)` on its uses). -/
def charsToNat (s : List Char) : Nat :=
  s.foldl (fun a c => a * 10 + (c.toNat - 48)) 0

/-- Decimal digits of a natural number (fuel-driven; `n + 1` is enough). -/
def natChars : Nat → Nat → List Char
  | 0, _ => []
  | fuel + 1, n =>
    if n < 10 then [Char.ofNat (48 + n)]
    else natChars fuel (n / 10) ++ [Char.ofNat (48 + n % 10)]

/-- Python `'%0wd' % n`: decimal digits left-padded with zeros to width `w`. -/
def padNum (w n : Nat) : List Char :=
  let s := natChars (n + 1) n
  List.replicate (w - s.length) '0' ++ s

/-- Python string comparison `a <= b` (code-point lexicographic). -/
def lcLe : List Char → List Char → Bool
  | [], _ => true
  | _ :: _, [] => false
  | a :: as_, b :: bs =>
    if a.toNat < b.toNat then true
    else if b.toNat < a.toNat then false
    else lcLe as_ bs

/-- Lookup in an insertion-ordered association list (a Python dict whose
keys are strings). -/
def slookup {β : Type} (k : String) : List (String × β) → Option β
  | [] => none
  | (k', v) :: rest => if k' = k then some v else slookup k rest

/-- Replace the value stored under a key of an association list (the key
is present in every use). -/
def supdate {β : Type} (k : String) (v : β) : List (String × β) → List (String × β)
  | [] => []
  | (k', v') :: rest => if k' = k then (k, v) :: rest else (k', v') :: supdate k v rest

/-! ## Constants of the source (`readgedcom.py` module constants) -/

/-- SECT_* and SECTION_NAMES: top-level sections in output order. -/
def SECTION_NAMES : List String :=
  ["head", "subm", "indi", "fam", "obje", "repo", "snote", "sour",
   "_evdef", "_todo", "_plac_defn", "_event_defn", "trlr"]

/-- NON_STD_SECTIONS. -/
def NON_STD_SECTIONS : List String := ["_evdef", "_todo", "_plac_defn", "_event_defn"]

/-- FAM_EVENT_TAGS (GEDCOM 7.0.1 spec pg 40). -/
def FAM_EVENT_TAGS : List String :=
  ["anul", "cens", "div", "divf", "enga", "marb", "marc", "marl", "mars", "marr", "even"]

/-- INDI_EVENT_TAGS (GEDCOM 7.0.1 spec pg 44). -/
def INDI_EVENT_TAGS : List String :=
  ["bapm", "barm", "basm", "bles", "buri", "cens", "chra", "conf", "crem", "deat",
   "emig", "fact", "fcom", "grad", "immi", "natu", "ordn", "prob", "reti", "will",
   "adop", "birt", "chr", "even"]

/-- OTHER_INDI_TAGS. -/
def OTHER_INDI_TAGS : List String :=
  ["sex", "exid", "fams", "famc", "refn", "_uid", "uuid", "_uuid"]

/-- FAM_MEMBER_TAGS. -/
def FAM_MEMBER_TAGS : List String := ["husb", "wife", "chil"]

/-- INDI_SINGLE_EVENTS: individual tags eligible for best-event selection. -/
def INDI_SINGLE_EVENTS : List String := ["name", "sex", "birt", "deat"]

/-- FAM_SINGLE_EVENTS: family tags eligible for best-event selection. -/
def FAM_SINGLE_EVENTS : List String := ["marr", "div", "anul"]

/-- CALENDAR_NAMES. -/
def CALENDAR_NAMES : List (List Char) :=
  ["gregorian".data, "hebrew".data, "julian".data, "french_r".data]

/-- DATE_MODIFIERS (GEDCOM 7.0.3 spec pg 21). -/
def DATE_MODIFIERS : List (List Char) :=
  ["abt".data, "aft".data, "bef".data, "cal".data, "est".data]

/-- ALT_DATE_MODIFIERS: alternate spellings and their replacements. -/
def ALT_DATE_MODIFIERS : List (List Char × String) :=
  [("about".data, "abt"), ("after".data, "aft"), ("before".data, "bef"),
   ("ca".data, "abt"), ("circa".data, "abt"),
   ("calculated".data, "cal"), ("estimate".data, "est"), ("estimated".data, "est"),
   ("abt.".data, "abt"), ("aft.".data, "aft"), ("bef.".data, "bef"),
   ("ca.".data, "abt"), ("cal.".data, "cal"), ("est.".data, "est")]

/-- MONTH_NUMBERS: month name to month number. -/
def MONTH_NUMBERS : List Char → Option Nat := fun s =>
  if s = "jan".data then some 1 else if s = "feb".data then some 2
  else if s = "mar".data then some 3 else if s = "apr".data then some 4
  else if s = "may".data then some 5 else if s = "jun".data then some 6
  else if s = "jul".data then some 7 else if s = "aug".data then some 8
  else if s = "sep".data then some 9 else if s = "oct".data then some 10
  else if s = "nov".data then some 11 else if s = "dec".data then some 12
  else if s = "january".data then some 1 else if s = "february".data then some 2
  else if s = "march".data then some 3 else if s = "april".data then some 4
  else if s = "june".data then some 6 else if s = "july".data then some 7
  else if s = "august".data then some 8 else if s = "september".data then some 9
  else if s = "october".data then some 10 else if s = "november".data then some 11
  else if s = "december".data then some 12 else none

/-- EVENT_PROOF_VALUES: the proof-setting score table
(`disproven = 0`, `other` (the default) `= 1`, `proven = 2`). -/
def EVENT_PROOF_VALUES : List Char → Option Int := fun s =>
  if s = "disproven".data then some 0
  else if s = "other".data then some 1
  else if s = "proven".data then some 2
  else none

/-- PRIVATIZE_OFF. -/
def PRIVATIZE_OFF : Nat := 0

/-- PRIVATIZE_MIN. -/
def PRIVATIZE_MIN : Nat := PRIVATIZE_OFF + 1

/-- PRIVATIZE_MAX. -/
def PRIVATIZE_MAX : Nat := PRIVATIZE_MIN + 1

/-- FILE_LEAD_CHAR: the byte-order-mark-like lead character of GEDCOM 7. -/
def FILE_LEAD_CHAR : Char := Char.ofNat 65279

/-! ## Errors raised by the source (`ValueError` and friends) -/

/-- The distinguishable fatal errors of the embedded code paths. -/
inductive GedErr
  | badDate (original : String)
  | badCalendar (name : String)
  | versionNotSupported (v : String)
  | versionNotDetected
  | headerNotDetected
  | finalNotTrailer
  | headerCount
  | trailerCount
  | noIndividuals
  | unknownSection (line : String)
  | structural (line : String)
deriving DecidableEq, Repr

/-- Decidable equality of `Except` results, so concrete runs can be
checked by `decide`. -/
instance exceptDecEq {ε α : Type} [DecidableEq ε] [DecidableEq α] :
    DecidableEq (Except ε α) := fun x y =>
  match x, y with
  | .ok a, .ok b =>
    if h : a = b then isTrue (by rw [h])
    else isFalse (by intro hh; cases hh; exact h rfl)
  | .error a, .error b =>
    if h : a = b then isTrue (by rw [h])
    else isFalse (by intro hh; cases hh; exact h rfl)
  | .ok _, .error _ => isFalse (by intro hh; cases hh)
  | .error _, .ok _ => isFalse (by intro hh; cases hh)

/-! ## Date Normalizer: `date_to_comparable` and `date_to_structure` -/

/-- `string_like_int`: only digits (true on the empty string, like the
regex test in the source). -/
def string_like_int (s : List Char) : Bool := s.all isDigitC

/-- `month_name_to_number` (the argument is already lowercase at every
call site inside the normalizer). -/
def month_name_to_number (s : List Char) : Nat :=
  match MONTH_NUMBERS s with
  | some n => n
  | none => 0

/-- The result record of `date_to_comparable`:
`{'value':…, 'malformed':…, 'add_abt_modifier':…}`. -/
structure date_cmp_result where
  value : Option String
  malformed : Bool
  add_abt_modifier : Bool
deriving DecidableEq, Repr

/-- A day/month/year slot of `date_to_comparable`, which in Python starts
as the int default and may be overwritten by a string from the split. -/
inductive NumOrStr
  | num (n : Nat)
  | txt (s : List Char)
deriving DecidableEq, Repr

/-- The `isinstance(day, str)` block of `date_to_comparable`: resolve the
day slot to `(day, malformed, add_abt)` or raise on `exit-on-bad-date`. -/
def resolve_day (exit_bad : Bool) (original : String) :
    NumOrStr → Except GedErr (Nat × Bool × Bool)
  | .num n => .ok (n, false, false)
  | .txt s =>
    if string_like_int s then
      let n := charsToNat s
      if n < 1 ∨ n > 31 then
        if exit_bad then .error (.badDate original) else .ok (1, true, true)
      else .ok (n, false, false)
    else
      if exit_bad then .error (.badDate original) else .ok (1, true, true)

/-- The `isinstance(month, str)` block of `date_to_comparable`: a failed
lookup is retried with `'-'` and `'.'` stripped, else the default month. -/
def resolve_month (exit_bad : Bool) (original : String) :
    NumOrStr → Except GedErr (Nat × Bool × Bool)
  | .num n => .ok (n, false, false)
  | .txt s =>
    match MONTH_NUMBERS s with
    | some _ => .ok (month_name_to_number s, false, false)
    | none =>
      let s' := lcReplace (lcReplace s "-".data "".data) ".".data "".data
      match MONTH_NUMBERS s' with
      | some _ => .ok (month_name_to_number s', true, true)
      | none =>
        if exit_bad then .error (.badDate original) else .ok (1, true, true)

/-- The `isinstance(year, str)` block of `date_to_comparable`: a
non-digit year is retried with `'-'` and `'.'` stripped, else default 1. -/
def resolve_year (exit_bad : Bool) (original : String) :
    NumOrStr → Except GedErr (Nat × Bool × Bool)
  | .num n => .ok (n, false, false)
  | .txt s =>
    if string_like_int s then .ok (charsToNat s, false, false)
    else
      let s' := lcReplace (lcReplace s "-".data "".data) ".".data "".data
      if string_like_int s' then .ok (charsToNat s', true, true)
      else
        if exit_bad then .error (.badDate original) else .ok (1, true, true)

/-- `date_to_comparable`: convert a date fragment to a zero-padded
`yyyymmdd` string, with the malformed and add-abt flags of the source.
`exit_bad` is the `exit-on-bad-date` setting. -/
def date_to_comparable (exit_bad : Bool) (original : String) :
    Except GedErr date_cmp_result :=
  let date0 := lcTrim (lcReplace (lcReplace (lcLower original.data) "  ".data " ".data)
      "  ".data " ".data)
  let date1 := lcTrim (if lcBegins "gregorian".data date0 then date0.drop 9 else date0)
  let date := lcTrim (if lcEnds "bce".data date1 then date1.take (date1.length - 3) else date1)
  if date = [] then .ok ⟨none, false, false⟩
  else
    let parts := lcSplitWs date
    if CALENDAR_NAMES.any (fun c => c = parts.headD []) then
      .error (.badCalendar ⟨parts.headD []⟩)
    else if parts.length ≥ 4 ∧ exit_bad then .error (.badDate original)
    else
      let slots : NumOrStr × NumOrStr × NumOrStr × Bool × Bool :=
        match parts with
        | [y] => (.num 1, .num 1, .txt y, false, true)
        | [m, y] => (.num 1, .txt m, .txt y, false, true)
        | [d, m, y] => (.txt d, .txt m, .txt y, false, false)
        | _ => (.num 1, .num 1, .num 1, true, true)
      match slots with
      | (dayS, monthS, yearS, malformed0, abt0) => do
        let (day, m1, a1) ← resolve_day exit_bad original dayS
        let (month, m2, a2) ← resolve_month exit_bad original monthS
        let (year, m3, a3) ← resolve_year exit_bad original yearS
        .ok ⟨some ⟨padNum 4 year ++ padNum 2 month ++ padNum 2 day⟩,
             malformed0 || m1 || m2 || m3, abt0 || a1 || a2 || a3⟩

/-- One endpoint (`min` or `max`) of a structured date:
`{modifier, value, year}`. -/
structure date_endpoint where
  modifier : String
  value : Option String
  year : Option Nat
deriving DecidableEq, Repr

/-- The result of `date_to_structure`.  When the date is unknown the
Python dict contains only `is_known: False`; otherwise it also carries
the original text, the malformed and range flags and both endpoints. -/
inductive date_structure
  | unknown
  | known (inp : String) (malformed : Bool) (is_range : Bool)
      (dmin dmax : date_endpoint)
deriving DecidableEq, Repr

/-- `is_known` of a structured date. -/
def date_structure.is_known : date_structure → Bool
  | .unknown => false
  | .known _ _ _ _ _ => true

/-- `is_range` of a structured date (meaningful only when known). -/
def date_structure.range_flag : date_structure → Bool
  | .unknown => false
  | .known _ _ r _ _ => r

/-- The `min` endpoint of a known date (the unknown default is unused). -/
def date_structure.minB : date_structure → date_endpoint
  | .unknown => ⟨"", none, none⟩
  | .known _ _ _ mn _ => mn

/-- The `max` endpoint of a known date (the unknown default is unused). -/
def date_structure.maxB : date_structure → date_endpoint
  | .unknown => ⟨"", none, none⟩
  | .known _ _ _ _ mx => mx

/-- The key set of the dict built by `date_to_structure` (used for the
`'flagged' in …['date']` membership test of `compute_privatize_flag`,
which always fails because `date_to_structure` never stores that key). -/
def date_structure.hasKey : date_structure → String → Bool
  | .unknown, k => k = "is_known"
  | .known _ _ _ _ _, k =>
    k = "is_known" ∨ k = "is_range" ∨ k = "in" ∨ k = "malformed" ∨ k = "min" ∨ k = "max"

/-- Intermediate mutable state of `date_to_structure` while the two
endpoints are populated (`value[…]['modifier']` and `…['value']`). -/
structure date_work where
  malformed : Bool
  min_modifier : String
  max_modifier : String
  min_value : Option String
  max_value : Option String
deriving DecidableEq, Repr

/-- `date_comparable_results`: run the comparable conversion on one
endpoint text and fold the results into the work state (`key` is
`"min"` or `"max"`). -/
def date_comparable_results (exit_bad : Bool) (original : List Char) (key : String)
    (w : date_work) : Except GedErr date_work := do
  let results ← date_to_comparable exit_bad ⟨original⟩
  let w := if key = "min" then { w with min_value := results.value }
           else { w with max_value := results.value }
  let w := { w with malformed := w.malformed || results.malformed }
  if results.add_abt_modifier then
    let w := if w.min_modifier = "" then { w with min_modifier := "ABT" } else w
    let w := if w.max_modifier = "" then { w with max_modifier := "ABT" } else w
    .ok w
  else
    .ok w

/-- The year of an endpoint: `int(value[0:4])` when the comparable value
is present, else Python `None`. -/
def endpoint_year (v : Option String) : Option Nat :=
  match v with
  | none => none
  | some s => some (charsToNat (s.data.take 4))

/-- `date_to_structure`: parse a GEDCOM date into the structured form.
`none` stands for a Python `None` argument; it behaves like `""`. -/
def date_to_structure (exit_bad : Bool) (original : Option String) :
    Except GedErr date_structure :=
  match original with
  | none => .ok .unknown
  | some o =>
    let given := lcTrim (lcReplace (lcReplace (lcLower o.data) "  ".data " ".data)
        "  ".data " ".data)
    if given = [] then .ok .unknown
    else do
      let w0 : date_work := ⟨false, "", "", none, none⟩
      let w ←
        if lcHasSub "from ".data given ∧ lcHasSub " to ".data given then do
          let parts := lcSplitOn (lcReplace given "from ".data "".data) " to ".data
          let w1 ← date_comparable_results exit_bad (parts.headD []) "min" w0
          let w2 ← date_comparable_results exit_bad (parts.getD 1 []) "max" w1
          .ok (true, { w2 with min_modifier := "from", max_modifier := "to" })
        else if lcHasSub "bet ".data given ∧ lcHasSub " and ".data given then do
          let parts := lcSplitOn (lcReplace given "bet ".data "".data) " and ".data
          let w1 ← date_comparable_results exit_bad (parts.headD []) "min" w0
          let w2 ← date_comparable_results exit_bad (parts.getD 1 []) "max" w1
          .ok (true, { w2 with min_modifier := "bet", max_modifier := "and" })
        else if lcBegins "to ".data given then do
          let w1 ← date_comparable_results exit_bad (lcReplace given "to ".data "".data)
              "min" w0
          let w2 := { w1 with min_modifier := "to" }
          .ok (false, { w2 with max_value := w2.min_value,
                                max_modifier := w2.min_modifier })
        else do
          let parts := lcSplitWs given
          let p0 := parts.headD []
          let (mod0, given') :=
            if DATE_MODIFIERS.any (fun m => m = p0) then
              ((⟨p0⟩ : String), lcReplace given (p0 ++ " ".data) "".data)
            else
              match (ALT_DATE_MODIFIERS.filter (fun kv => kv.1 = p0)).head? with
              | some (_, repl) => (repl, lcReplace given (p0 ++ " ".data) "".data)
              | none => ("", given)
          let w1 := { w0 with min_modifier := mod0 }
          let w2 ← date_comparable_results exit_bad given' "min" w1
          .ok (false, { w2 with max_value := w2.min_value,
                                max_modifier := w2.min_modifier })
      match w with
      | (is_range, wf) =>
        .ok (.known o wf.malformed is_range
          ⟨wf.min_modifier, wf.min_value, endpoint_year wf.min_value⟩
          ⟨wf.max_modifier, wf.max_value, endpoint_year wf.max_value⟩)

/-! ## Facts and best-event selection (`set_best_events`) -/

/-- One parsed fact record (an element of `out_data[tag]`): the keys a
fact dict may carry, with `Option`/`Bool` marking key presence.
`proof` is the `_proof` tag value, `primary` the presence of `_prim`,
`flagged` the presence of the `flagged` marker, `date` the presence of a
`date` sub-record, `plac` a place key (whose stored value may itself be
Python `None`), `ftype` the lowercased `type` of a custom event. -/
structure GFact where
  value : Option String := none
  ftype : Option String := none
  date : Option date_structure := none
  plac : Option (Option String) := none
  note : Option String := none
  proof : Option String := none
  primary : Bool := false
  flagged : Bool := false
deriving DecidableEq, Repr

/-- The all-absent fact (used as the out-of-range default of `List.getD`;
the source never indexes out of range on parsed data). -/
def factDefault : GFact := {}

/-- The score of one candidate fact inside `set_best_events`: the default
1 is replaced by the `_proof` table value when a recognised `_proof` tag
is present, and the `value *= 10` primary bonus is applied inside the
`_proof`-present branch of the source. -/
def event_proof_score (sect : GFact) : Int :=
  match sect.proof with
  | none => 1
  | some p =>
    let v : Int :=
      match EVENT_PROOF_VALUES (lcLower p.data) with
      | some v => v
      | none => 1
    if sect.primary then v * 10 else v

/-- The enumeration loop of `set_best_events`: track the best value and
its index, updating on strictly greater scores (first maximum kept).
The initial best is `min(EVENT_PROOF_VALUES.values()) - 1 = -1`. -/
def best_event_go : List GFact → Nat → Int → Nat → Int × Nat
  | [], _, best, found => (best, found)
  | f :: rest, i, best, found =>
    if best < event_proof_score f then best_event_go rest (i + 1) (event_proof_score f) i
    else best_event_go rest (i + 1) best found

/-- The per-tag result of `set_best_events`: the first index with maximal
score, provided that maximum exceeds `EVENT_PROOF_VALUES['disproven'] = 0`. -/
def best_event_index (sections : List GFact) : Option Nat :=
  let r := best_event_go sections 0 (-1) 0
  if 0 < r.1 then some r.2 else none

/-- `set_best_events`: build the `best-events` map for the tags of the
given single-event list which are present in the record's fact map. -/
def set_best_events (single_time_list : List String)
    (out_data : List (String × List GFact)) : List (String × Nat) :=
  match single_time_list with
  | [] => []
  | tag :: rest =>
    match slookup tag out_data with
    | none => set_best_events rest out_data
    | some sections =>
      match best_event_index sections with
      | some i => (tag, i) :: set_best_events rest out_data
      | none => set_best_events rest out_data

/-- A fact whose proof marker reads `disproven`. -/
def marked_disproven (f : GFact) : Prop :=
  ∃ p, f.proof = some p ∧ lcLower p.data = "disproven".data

/-- A fact in the default state: it carries no proof marker. -/
def marked_default (f : GFact) : Prop := f.proof = none

/-- A fact whose proof marker reads `proven`. -/
def marked_proven (f : GFact) : Prop :=
  ∃ p, f.proof = some p ∧ lcLower p.data = "proven".data

/-- The combined score exactly as the sentence of the claim reads it:
proof value from the table (1 when no marker), times 10 whenever the
fact is marked primary — independently of the proof marker. -/
def claimed_combined_score (f : GFact) : Int :=
  (match f.proof with
   | none => 1
   | some p =>
     match EVENT_PROOF_VALUES (lcLower p.data) with
     | some v => v
     | none => 1) * (if f.primary then 10 else 1)

/-- First index attaining the maximum of `claimed_combined_score`
(the best index the claim's own scoring would record). -/
def claimed_best_go : List GFact → Nat → Int → Nat → Int × Nat
  | [], _, best, found => (best, found)
  | f :: rest, i, best, found =>
    if best < claimed_combined_score f then
      claimed_best_go rest (i + 1) (claimed_combined_score f) i
    else claimed_best_go rest (i + 1) best found

/-- The best index under the claim's scoring formula. -/
def claimed_best_index (sections : List GFact) : Option Nat :=
  let r := claimed_best_go sections 0 (-1) 0
  if 0 < r.1 then some r.2 else none

/-- The amended combined score: the primary factor 10 applies only when a
proof marker is present (the source multiplies inside that branch). -/
def amended_combined_score (f : GFact) : Int :=
  (match f.proof with
   | none => 1
   | some p =>
     match EVENT_PROOF_VALUES (lcLower p.data) with
     | some v => v
     | none => 1) *
  (if f.primary ∧ f.proof.isSome then 10 else 1)

/-- Counterexample list for the claimed scoring: a default fact followed
by a default-but-primary fact. -/
def c3facts : List GFact := [{}, { primary := true }]

/-! ## Parsed individuals, families and the Cross-Reference Validator -/

/-- One parsed name record (the dict built by `handle_name_tag`). -/
structure NameFact where
  value : String := ""
  givn : Option String := none
  surn : Option String := none
  npfx : Option String := none
  nick : Option String := none
  nsfx : Option String := none
  display : String := ""
  html : String := ""
  unicode : String := ""
deriving DecidableEq, Repr

/-- A parsed individual (one entry of `data['individuals']`): `facts`
holds the event-shaped tags (each a candidate list of fact dicts),
`strFacts` the plain string-list tags (sex, exid, refn, …), `fams` and
`famc` the family-membership id lists (`Option` marks key presence),
`best` the `best-events` map and `priv` the `privatized` flag. -/
structure Individual where
  xref : Int := 0
  names : List NameFact := []
  facts : List (String × List GFact) := []
  strFacts : List (String × List String) := []
  fams : Option (List String) := none
  famc : Option (List String) := none
  best : List (String × Nat) := []
  priv : Nat := PRIVATIZE_OFF
deriving DecidableEq, Repr

/-- A parsed family (one entry of `data['families']`). -/
structure Family where
  xref : Int := 0
  husb : Option (List String) := none
  wife : Option (List String) := none
  chil : Option (List String) := none
  facts : List (String × List GFact) := []
  best : List (String × Nat) := []
  priv : Nat := PRIVATIZE_OFF
deriving DecidableEq, Repr

/-- The two parsed maps of a document (`data['individuals']` and
`data['families']`), insertion-ordered as Python dicts are. -/
structure ParsedData where
  individuals : List (String × Individual) := []
  families : List (String × Family) := []
deriving DecidableEq, Repr

/-- Python `list.remove(x)`: drop the first occurrence. -/
def list_remove (x : String) : List String → List String
  | [] => []
  | y :: rest => if y = x then rest else y :: list_remove x rest

/-- Python's `for x in lst: … lst.remove(x)` loop: the list iterator
advances its index by one per step even when the body removed an element,
so the element sliding into the removed slot is skipped.  Returns the
final list and the removed elements in removal order.  The fuel only
bounds the iteration count; `lst.length + 1` always suffices because the
index grows by one per step and the list never grows. -/
def prune_scan_go (keep : String → Bool) : Nat → Nat → List String →
    List String × List String
  | 0, _, lst => (lst, [])
  | fuel + 1, i, lst =>
    if h : i < lst.length then
      let x := lst.get ⟨i, h⟩
      if keep x then prune_scan_go keep fuel (i + 1) lst
      else
        match prune_scan_go keep fuel (i + 1) (list_remove x lst) with
        | (final, removed) => (final, x :: removed)
    else (lst, [])

/-- The remove-while-iterating scan over one reference list. -/
def prune_scan (keep : String → Bool) (lst : List String) :
    List String × List String :=
  prune_scan_go keep (lst.length + 1) 0 lst

/-- Scan one optional reference list (absent key: nothing to do). -/
def prune_field (keep : String → Bool) :
    Option (List String) → Option (List String) × List String
  | none => (none, [])
  | some lst =>
    match prune_scan keep lst with
    | (kept, removed) => (some kept, removed)

/-- `concat_things`: stringify, strip and join the arguments by single
spaces. -/
def concat_things : List String → String
  | [] => ""
  | [a] => ⟨lcTrim a.data⟩
  | a :: rest => (⟨lcTrim a.data⟩ : String) ++ " " ++ concat_things rest

/-- DATA_WARN. -/
def DATA_WARN : String := "Warning. Use a validator. "

/-- The warning recorded for each reference removed from an individual. -/
def indi_xref_messages (indi fam_type : String) (removed : List String) :
    List String :=
  removed.map (fun fam =>
    concat_things [DATA_WARN, "indi", indi, "lists", fam, "in", fam_type,
      "but not found."] ++ " Removing xref.")

/-- The warning recorded for each reference removed from a family. -/
def fam_xref_messages (fam fam_type : String) (removed : List String) :
    List String :=
  removed.map (fun indi =>
    concat_things [DATA_WARN, "fam", fam, "lists", fam_type, "of", indi,
      "but not found."] ++ " Removing xref.")

/-- The individual loop of `check_parsed_sections`: prune `fams` then
`famc` of every individual against the family keys (default settings, so
dangling references warn instead of raising). -/
def check_indis (present : String → Bool) :
    List (String × Individual) → List (String × Individual) × List String
  | [] => ([], [])
  | (key, ind) :: rest =>
    match prune_field present ind.fams with
    | (fams', rem1) =>
      match prune_field present ind.famc with
      | (famc', rem2) =>
        match check_indis present rest with
        | (rest', msgs) =>
          ((key, { ind with fams := fams', famc := famc' }) :: rest',
           indi_xref_messages key "fams" rem1 ++
             indi_xref_messages key "famc" rem2 ++ msgs)

/-- The family loop of `check_parsed_sections`: prune `husb` and `wife`
(an empty id is kept: the source tests `if indi and …`) and then `chil`
against the individual keys. -/
def check_fams (present : String → Bool) :
    List (String × Family) → List (String × Family) × List String
  | [] => ([], [])
  | (key, fam) :: rest =>
    match prune_field (fun i => i = "" || present i) fam.husb with
    | (husb', rem1) =>
      match prune_field (fun i => i = "" || present i) fam.wife with
      | (wife', rem2) =>
        match prune_field present fam.chil with
        | (chil', rem3) =>
          match check_fams present rest with
          | (rest', msgs) =>
            ((key, { fam with husb := husb', wife := wife', chil := chil' }) :: rest',
             fam_xref_messages key "husb" rem1 ++ fam_xref_messages key "wife" rem2 ++
               fam_xref_messages key "chil" rem3 ++ msgs)

/-- `check_parsed_sections` under the default settings: prune dangling
cross-references in place and return the document together with the
warning messages recorded by `print_warn`. -/
def check_parsed_sections (data : ParsedData) : ParsedData × List String :=
  match check_indis (fun f => (slookup f data.families).isSome) data.individuals with
  | (indis', msgs1) =>
    match check_fams (fun i => (slookup i indis').isSome) data.families with
    | (fams', msgs2) => (⟨indis', fams'⟩, msgs1 ++ msgs2)

/-- The failing document for the Cross-Reference Validator: one
individual whose spouse-family list names two families, neither of which
exists. -/
def c4doc : ParsedData := ⟨[("i1", { fams := some ["f1", "f2"] })], []⟩

/-! ## Privacy Flag Engine (`compute_privatize_flag`, `set_privatize_flag`) -/

/-- The first loop of `compute_privatize_flag`: over the death-family
keys, look for a `'flagged'` key inside the first fact's date dict (the
parse stores `flagged` on the fact, never inside the date dict, so this
test can never fire) and relax to MIN on a hit. -/
def flagged_date_loop (ind : Individual) : List String → Nat → Nat
  | [], result => result
  | key :: rest, result =>
    match slookup key ind.facts with
    | none => flagged_date_loop ind rest result
    | some sections =>
      match (sections.getD 0 factDefault).date with
      | none => flagged_date_loop ind rest result
      | some d =>
        if d.hasKey "flagged" then PRIVATIZE_MIN
        else flagged_date_loop ind rest result

/-- The second loop of `compute_privatize_flag`: the presence of any
death-family key relaxes to MIN; the first such key whose best-index
fact has a known date is compared (its `max` value against the death
limit) and the loop breaks there, reporting `tested_date`.  A known
`max` value of Python `None` would raise in the source; it is compared
as `""` here (unreachable for parsed event dates). -/
def death_date_loop (death_limit : String) (ind : Individual) :
    List String → Nat → Nat × Bool
  | [], result => (result, false)
  | key :: rest, result =>
    match slookup key ind.facts with
    | none => death_date_loop death_limit ind rest result
    | some sections =>
      let best := (slookup key ind.best).getD 0
      match (sections.getD best factDefault).date with
      | none => death_date_loop death_limit ind rest PRIVATIZE_MIN
      | some .unknown => death_date_loop death_limit ind rest PRIVATIZE_MIN
      | some (.known _ _ _ _ mx) =>
        if lcLe (mx.value.getD "").data death_limit.data then (PRIVATIZE_OFF, true)
        else (PRIVATIZE_MIN, true)

/-- The third loop of `compute_privatize_flag` (only run when no death
date was tested): the first birth-family key whose best-index fact has a
known date decides OFF versus the incoming result, breaking there. -/
def birth_date_loop (birth_limit : String) (ind : Individual) :
    List String → Nat → Nat
  | [], result => result
  | key :: rest, result =>
    match slookup key ind.facts with
    | none => birth_date_loop birth_limit ind rest result
    | some sections =>
      let best := (slookup key ind.best).getD 0
      match (sections.getD best factDefault).date with
      | none => birth_date_loop birth_limit ind rest result
      | some .unknown => birth_date_loop birth_limit ind rest result
      | some (.known _ _ _ _ mx) =>
        if lcLe (mx.value.getD "").data birth_limit.data then PRIVATIZE_OFF
        else result

/-- `compute_privatize_flag`: derive one individual's privatization
level from the given comparable limit dates. -/
def compute_privatize_flag (death_limit birth_limit : String)
    (data : Individual) : Nat :=
  let result := flagged_date_loop data ["deat", "buri", "crem"] PRIVATIZE_MAX
  match death_date_loop death_limit data ["deat", "buri", "crem"] result with
  | (result, tested_date) =>
    if tested_date then result
    else birth_date_loop birth_limit data ["birt", "bapm", "chr"] result

/-- The family part of `set_privatize_flag`: a family's level is the
maximum of its partners' levels, starting from OFF. -/
def fam_priv_value (indis : List (String × Individual)) (fam : Family) : Nat :=
  let step := fun (value : Nat) (field : Option (List String)) =>
    match field with
    | none => value
    | some lst =>
      lst.foldl (fun v i =>
        match slookup i indis with
        | some ind => max v ind.priv
        | none => v) value
  step (step PRIVATIZE_OFF fam.husb) fam.wife

/-- `set_privatize_flag`, with the two comparable cutoff dates
(`comparable_before_today(years_since_death)` and
`comparable_before_today(years_since_death + max_lifetime)`, computed
from the wall clock in the source) passed in as parameters. -/
def set_privatize_flag (compare_with_death compare_with_birth : String)
    (data : ParsedData) : ParsedData :=
  let indis := data.individuals.map (fun kv =>
    (kv.1, { kv.2 with
      priv := compute_privatize_flag compare_with_death compare_with_birth kv.2 }))
  let fams := data.families.map (fun kv =>
    (kv.1, { kv.2 with priv := fam_priv_value indis kv.2 }))
  ⟨indis, fams⟩

/-- `single_privatize_flag` / `unset_privatize_flag`: set the same flag
everywhere (`unset` uses `PRIVATIZE_OFF`). -/
def single_privatize_flag (flag_value : Nat) (data : ParsedData) : ParsedData :=
  ⟨data.individuals.map (fun kv => (kv.1, { kv.2 with priv := flag_value })),
   data.families.map (fun kv => (kv.1, { kv.2 with priv := flag_value }))⟩

/-- `unset_privatize_flag`. -/
def unset_privatize_flag (data : ParsedData) : ParsedData :=
  single_privatize_flag PRIVATIZE_OFF data

/-- The counterexample individual for C7: a death event dated 1 jan 2020
(after the cutoff) together with a burial dated 1 jan 1995 (at or before
the cutoff 20060101). -/
def c7indi : Individual :=
  { facts :=
      [("deat", [{ date := some (.known "1 jan 2020" false false
          ⟨"", some "20200101", some 2020⟩ ⟨"", some "20200101", some 2020⟩) }]),
       ("buri", [{ date := some (.known "1 jan 1995" false false
          ⟨"", some "19950101", some 1995⟩ ⟨"", some "19950101", some 1995⟩) }])] }

/-- Concrete OFF-scenario individual: a burial dated 1 jan 1995 as the
only death-family evidence. -/
def c7buriIndi : Individual :=
  { facts :=
      [("buri", [{ date := some (.known "1 jan 1995" false false
          ⟨"", some "19950101", some 1995⟩ ⟨"", some "19950101", some 1995⟩) }])] }

/-! ## Line Tokenizer and Hierarchical Reader (`line_values`, `read_in_data`) -/

/-- A tokenized input line with its nested sub-lines:
`{in, tag, value, sub}` plus the `parsed` back-pointer key that the
record walkers add later (absent while reading). -/
inductive LineTree
  | mk (inLine : String) (tag : String) (value : Option String)
      (sub : List LineTree) (parsed : Option (String × Nat))

/-- The raw input line of a node. -/
def LineTree.inLine : LineTree → String
  | .mk i _ _ _ _ => i

/-- The lowercased tag of a node. -/
def LineTree.tag : LineTree → String
  | .mk _ t _ _ _ => t

/-- The value of a node (text after the tag), absent when the line had
only two fields. -/
def LineTree.value : LineTree → Option String
  | .mk _ _ v _ _ => v

/-- The sub-records of a node. -/
def LineTree.sub : LineTree → List LineTree
  | .mk _ _ _ s _ => s

/-- The `parsed` back-pointer of a node. -/
def LineTree.parsed : LineTree → Option (String × Nat)
  | .mk _ _ _ _ p => p

/-- Replace the sub-list of a node. -/
def LineTree.withSub : LineTree → List LineTree → LineTree
  | .mk i t v _ p, s => .mk i t v s p

/-- `line_values`: tokenize one line into `{in, tag, value, sub}`. -/
def line_values (input_line : String) : LineTree :=
  let parts := lcSplitMax2 input_line.data
  .mk input_line ⟨lcLower (parts.getD 1 [])⟩
    (if parts.length > 2 then some ⟨parts.getD 2 []⟩ else none) [] none

/-- SUPPORTED_VERSIONS (an `x` makes a startswith comparison). -/
def SUPPORTED_VERSIONS : List String := ["5.5.1", "5.5.5", "7.0.x"]

/-- Is the detected version in the supported list (wildcard suffix after
an `x`, as `re.sub(r'x.*','',supported)` plus `startswith`)? -/
def version_supported (v : String) : Bool :=
  SUPPORTED_VERSIONS.any (fun sup =>
    if lcHasSub "x".data sup.data then
      lcBegins (sup.data.takeWhile (fun c => ¬ (c = 'x'))) v.data
    else v = sup)

/-- The first `vers` child of a `gedc` record, reported together with
its (possibly absent) value. -/
def first_vers : List LineTree → Option (Option String)
  | [] => none
  | t :: rest => if t.tag = "vers" then some t.value else first_vers rest

/-- The header scan of `confirm_gedcom_version`: every `gedc` child
overwrites the version with its first `vers` value (the inner loop of
the source breaks, the outer does not). -/
def scan_gedc : List LineTree → Option String → Option String
  | [], cur => cur
  | t :: rest, cur =>
    if t.tag = "gedc" then
      match first_vers t.sub with
      | some v => scan_gedc rest v
      | none => scan_gedc rest cur
    else scan_gedc rest cur

/-- `confirm_gedcom_version`: detect and validate the version from the
first header record (a `None` or missing value reads as undetected). -/
def confirm_gedcom_version (heads : List LineTree) : Except GedErr String :=
  match heads with
  | [] => .error .headerNotDetected
  | h0 :: _ =>
    match scan_gedc h0.sub none with
    | none => .error .versionNotDetected
    | some v =>
      if version_supported v then .ok v else .error (.versionNotSupported v)

/-- Last element of a tree list. -/
def lastTree : List LineTree → Option LineTree
  | [] => none
  | [t] => some t
  | _ :: t :: rest => lastTree (t :: rest)

/-- All but the last element of a tree list. -/
def dropLastTree : List LineTree → List LineTree
  | [] => []
  | [_] => []
  | t :: t' :: rest => t :: dropLastTree (t' :: rest)

/-- Append a new node at nesting depth `d` along the most-recent path:
depth 0 appends to the list itself; deeper levels descend into the last
node.  This is exactly the source's `data[sect][zero]['sub'][one]…`
indexing, because each of the `zero, one, …` cursors always equals
`len - 1` of the list it indexes when used, and is `None` (here: no
node to descend into, `none`) otherwise. -/
def append_at_depth : Nat → List LineTree → LineTree → Option (List LineTree)
  | 0, ts, t => some (ts ++ [t])
  | d + 1, ts, t =>
    match lastTree ts with
    | none => none
    | some last =>
      match append_at_depth d last.sub t with
      | none => none
      | some s => some (dropLastTree ts ++ [last.withSub s])

/-- Mutable-dict update of the section store. -/
def fupdate (f : String → List LineTree) (k : String) (v : List LineTree) :
    String → List LineTree :=
  fun s => if s = k then v else f s

/-- The reader's state: the per-section line trees (`secFun`, with the
dict's key insertion order in `secKeys`; the parsed/messages keys that
`read_file` also pre-creates are excluded from output explicitly by the
source, so they are not tracked), the current section, the detected
version, the duplicate-section bookkeeping and the accumulated
warnings. -/
structure ReaderState where
  secFun : String → List LineTree
  secKeys : List String
  sect : String
  version : String
  ignore_line : Bool
  lines_found : List String
  final_section : String
  warnings : List String

/-- The state before any line is read (`read_file` pre-creates an empty
list per standard section name). -/
def initReaderState : ReaderState :=
  { secFun := fun _ => [], secKeys := SECTION_NAMES, sect := "?", version := "",
    ignore_line := false, lines_found := [], final_section := "?", warnings := [] }

/-- UNK_SECTION_WARN. -/
def UNK_SECTION_WARN : String := "Warning. Ignoring unknown section:"

/-- The level-0 dispatch of `read_in_data`, as a pure classification of
the lowercased line: the resulting section name, and whether the final
else branch (unrecognised header) was taken. -/
def classify0_full (lc : List Char) : String × Bool :=
  if lcBegins "0 head".data lc then ("head", false)
  else if lcBegins "0 @i".data lc && lcEnds " indi".data lc then ("indi", false)
  else if lcBegins "0 @f".data lc && lcEnds " fam".data lc then ("fam", false)
  else if lcBegins "0 trlr".data lc then ("trlr", false)
  else if lcEnds "@ obje".data lc then ("obje", false)
  else if lcEnds "@ repo".data lc then ("repo", false)
  else if lcEnds "@ sour".data lc then ("sour", false)
  else if lcEnds "@ subm".data lc then ("subm", false)
  else if lcHasSub "@ snote".data lc then ("snote", false)
  else ((⟨lc.drop 2⟩ : String), true)

/-- The section a level-0 line selects. -/
def classify0 (lc : List Char) : String := (classify0_full lc).1

/-- Process one level-0 line: classify, handle duplicate individual and
family headers, warn on (and collect) unknown sections, establish the
version once the header is left, and append the tokenized line. -/
def process0 (st : ReaderState) (line : String) : Except GedErr ReaderState :=
  let lc := lcLower line.data
  let lcs : String := ⟨lc⟩
  let cls := classify0_full lc
  let sect := cls.1
  let isIF := sect = "indi" ∨ sect = "fam"
  let isDup := isIF ∧ lcs ∈ st.lines_found
  let lines_found := if isIF then st.lines_found ++ [lcs] else st.lines_found
  let warn1 : List String :=
    if isDup then [concat_things [DATA_WARN, "Duplicate section ignored:", line]]
    else []
  let warn2 : List String :=
    if cls.2 ∧ (lcSplitWs sect.data).headD [] ∉ NON_STD_SECTIONS.map String.data then
      [concat_things [UNK_SECTION_WARN, line]]
    else []
  let secKeys := if cls.2 ∧ sect ∉ st.secKeys then st.secKeys ++ [sect] else st.secKeys
  match (if ¬ (sect = "head") ∧ st.version = "" then
           confirm_gedcom_version (st.secFun "head")
         else .ok st.version) with
  | .error e => .error e
  | .ok version' =>
    .ok { secFun :=
            if isDup then st.secFun
            else fupdate st.secFun sect (st.secFun sect ++ [line_values line]),
          secKeys := secKeys, sect := sect, version := version',
          ignore_line := isDup, lines_found := lines_found,
          final_section := sect, warnings := st.warnings ++ warn1 ++ warn2 }

/-- Process one line of level 1–5: append along the most-recent path of
the current section (a missing section key or a `None` cursor is the
source's `KeyError`/`TypeError`). -/
def processSub (st : ReaderState) (d : Nat) (line : String) :
    Except GedErr ReaderState :=
  if st.ignore_line then .ok st
  else if st.sect ∈ st.secKeys then
    match append_at_depth d (st.secFun st.sect) (line_values line) with
    | some ts => .ok { st with secFun := fupdate st.secFun st.sect ts }
    | none => .error (.structural line)
  else .error (.structural line)

/-- Process one (already normalized) line of the input. -/
def processLine (st : ReaderState) (line : String) : Except GedErr ReaderState :=
  if line = "" then .ok st
  else if lcBegins "0 ".data line.data then process0 st line
  else if lcBegins "1 ".data line.data then processSub st 1 line
  else if lcBegins "2 ".data line.data then processSub st 2 line
  else if lcBegins "3 ".data line.data then processSub st 3 line
  else if lcBegins "4 ".data line.data then processSub st 4 line
  else if lcBegins "5 ".data line.data then processSub st 5 line
  else .ok { st with warnings :=
    st.warnings ++ [concat_things [DATA_WARN, "Level not handled:", line]] }

/-- `strip_lead_chars`: remove every lead character from the first line. -/
def strip_lead_chars (line : String) : String :=
  ⟨lcReplace line.data [FILE_LEAD_CHAR] []⟩

/-- The per-line normalization of the read loop:
`line.replace('\t',' ').strip()`. -/
def normalize_line (line : String) : String :=
  ⟨lcTrim (lcReplace line.data "\t".data " ".data)⟩

/-- Normalize all lines (the first also loses the lead sequence). -/
def normalize_lines : List String → List String
  | [] => []
  | l :: rest => normalize_line (strip_lead_chars l) :: rest.map normalize_line

/-- Run the reader over normalized lines. -/
def run_reader_lines : ReaderState → List String → Except GedErr ReaderState
  | st, [] => .ok st
  | st, l :: rest =>
    match processLine st l with
    | .error e => .error e
    | .ok st' => run_reader_lines st' rest

/-- Run the reader over a raw input (normalizing first). -/
def run_reader (lines : List String) : Except GedErr ReaderState :=
  run_reader_lines initReaderState (normalize_lines lines)

/-- `read_in_data`: read every line, then require that the final
top-level section was the trailer. -/
def read_in_data (lines : List String) : Except GedErr ReaderState :=
  match run_reader lines with
  | .error e => .error e
  | .ok st =>
    if (⟨lcLower st.final_section.data⟩ : String) = "trlr" then .ok st
    else .error .finalNotTrailer

/-- The structural checks `read_file` performs right after
`read_in_data`, under the default settings: header once, trailer once,
at least one individual (fatal by default), zero families tolerated with
a warning. -/
def read_checked (lines : List String) : Except GedErr ReaderState :=
  match read_in_data lines with
  | .error e => .error e
  | .ok st =>
    if ¬ ((st.secFun "head").length = 1) then .error .headerCount
    else if ¬ ((st.secFun "trlr").length = 1) then .error .trailerCount
    else if (st.secFun "indi").length < 1 then .error .noIndividuals
    else if (st.secFun "fam").length < 1 then
      .ok { st with warnings := st.warnings ++ [concat_things [DATA_WARN, "No families"]] }
    else .ok st

/-- The section selected by a line, when it is a level-0 line. -/
def level0class (l : String) : Option String :=
  if lcBegins "0 ".data l.data then some (classify0 (lcLower l.data)) else none

/-- The classifications of all the (normalized) level-0 lines of an
input, in order. -/
def input_sections (lines : List String) : List String :=
  (normalize_lines lines).filterMap level0class

/-- The physically last top-level section of an input (`'?'` when there
is none), as the read loop tracks it. -/
def input_final_sect (lines : List String) : String :=
  (input_sections lines).getLast?.getD "?"

/-- How many level-0 lines of the input select the given section. -/
def count_sections (lines : List String) (sect : String) : Nat :=
  ((input_sections lines).filter (fun s => s = sect)).length

/-! ## The original writer (`output_original`) -/

mutual

/-- `output_sub_section`: one node and, recursively, its sub-records. -/
def output_sub_section : LineTree → List String
  | .mk i _ _ sub _ => i :: output_section sub

/-- `output_section`: all nodes of a section in order. -/
def output_section : List LineTree → List String
  | [] => []
  | t :: rest => output_sub_section t ++ output_section rest

end

/-- The lines `output_original` writes to the file: the known sections in
`SECTION_NAMES` order with the trailer last, unknown sections (in dict
insertion order) before it.  The version-dependent lead sequence is
printed to standard output by the source (the `file=outf` argument is
missing there), so the file contents carry no lead character in any
case; the claim compares modulo the lead-sequence convention. -/
def output_original (st : ReaderState) : List String :=
  ((SECTION_NAMES.filter (fun s => ¬ (s = "trlr"))).map
      (fun s => output_section (st.secFun s))).flatten ++
    ((st.secKeys.filter (fun s => s ∉ SECTION_NAMES)).map
      (fun s => output_section (st.secFun s))).flatten ++
    output_section (st.secFun "trlr")

/-- A well-formed input accepted by `read_file` whose family record
physically precedes its individual record. -/
def ex6lines : List String :=
  ["0 HEAD", "1 GEDC", "2 VERS 5.5.1", "0 @F1@ FAM", "0 @I1@ INDI",
   "1 FAMS @F1@", "0 TRLR"]

/-- Does the line carry a handled level number 0–5? -/
def line_leveled (l : String) : Bool :=
  lcBegins "0 ".data l.data || lcBegins "1 ".data l.data || lcBegins "2 ".data l.data ||
  lcBegins "3 ".data l.data || lcBegins "4 ".data l.data || lcBegins "5 ".data l.data

/-- The canonical position of a section name in the output order. -/
def sec_index (s : String) : Nat := SECTION_NAMES.indexOf s

/-- The flattened output over all standard sections in canonical order
(what `output_original` writes when no unknown section was collected). -/
def outJoin (st : ReaderState) : List String :=
  (SECTION_NAMES.map (fun s => output_section (st.secFun s))).flatten

/-- Is a read result a success? -/
def except_is_ok : Except GedErr ReaderState → Bool
  | .ok _ => true
  | .error _ => false

/-- The lowercased text of the level-0 lines of an input (duplicate
individual and family headers are detected on these). -/
def input_level0_lcs (lines : List String) : List String :=
  lines.filterMap (fun l =>
    if (level0class l).isSome then some ((⟨lcLower l.data⟩ : String)) else none)

/-- What `output_original` writes for `ex6lines`: the individual and
family records regrouped into canonical section order. -/
def ex6output : List String :=
  ["0 HEAD", "1 GEDC", "2 VERS 5.5.1", "0 @I1@ INDI", "1 FAMS @F1@",
   "0 @F1@ FAM", "0 TRLR"]

/-- The canonically ordered variant of `ex6lines`. -/
def ex6canonical : List String :=
  ["0 HEAD", "1 GEDC", "2 VERS 5.5.1", "0 @I1@ INDI", "1 FAMS @F1@",
   "0 @F1@ FAM", "0 TRLR"]

/-! ### The individual query engine (`find_individuals` / `match_individual`) -/

/-- Strict lexicographic comparison of Python strings (`have < want`). -/
def lcLt : List Char → List Char → Bool
  | [], [] => false
  | [], _ :: _ => true
  | _ :: _, [] => false
  | a :: as_, b :: bs =>
    if a.toNat < b.toNat then true
    else if b.toNat < a.toNat then false
    else lcLt as_ bs

/-- Python `s.split( '.', 1 )` restricted to the interesting outcome: the
part before the first `sep` and the part after it, or `none` when `sep`
does not occur (i.e. `'.' in search_tag` is false). -/
def lcSplitFirst (sep : Char) : List Char → Option (List Char × List Char)
  | [] => none
  | c :: cs =>
    if c = sep then some ([], cs)
    else
      match lcSplitFirst sep cs with
      | some (a, b) => some (c :: a, b)
      | none => none

/-- The nested `compare` of `match_individual`: string comparison under one
of the normalized operators (`'in'` is Python substring membership). -/
def compare_str (hav want op : String) : Bool :=
  if op = "=" then decide (hav = want)
  else if op = "!=" then decide (hav ≠ want)
  else if op = "<" then lcLt hav.data want.data
  else if op = "<=" ∨ op = "=<" then lcLe hav.data want.data
  else if op = ">" then lcLt want.data hav.data
  else if op = ">=" ∨ op = "=>" then lcLe want.data hav.data
  else if op = "in" then lcHasSub want.data hav.data
  else if op = "!in" then !lcHasSub want.data hav.data
  else false

/-- `compare_string`: the `isinstance( have, str )` guard — a missing or
non-string value (modelled as `none`) never matches. -/
def compare_string (hav : Option String) (want op : String) : Bool :=
  match hav with
  | some s => compare_str s want op
  | none => false

/-- `compare_int` of `find_individuals` (used for the `xref` search). -/
def compare_int (hav want : Int) (op : String) : Bool :=
  if op = "=" ∨ op = "in" then decide (hav = want)
  else if op = "!=" ∨ op = "!in" then decide (hav ≠ want)
  else if op = "<" then decide (hav < want)
  else if op = "<=" ∨ op = "=<" then decide (hav ≤ want)
  else if op = ">" then decide (want < hav)
  else if op = ">=" ∨ op = "=>" then decide (want ≤ hav)
  else false

/-- Key lookup in a parsed name dict (`name_data[subtag]`); all stored
values are strings. -/
def nameFact_get (n : NameFact) : String → Option String
  | "value" => some n.value
  | "givn" => n.givn
  | "surn" => n.surn
  | "npfx" => n.npfx
  | "nick" => n.nick
  | "nsfx" => n.nsfx
  | "display" => some n.display
  | "html" => some n.html
  | _ => none

/-- `compare_name` of `match_individual`. -/
def compare_name (nd : NameFact) (subtag : Option String) (search_value op : String) : Bool :=
  match subtag with
  | some st =>
    match nameFact_get nd st with
    | some v => compare_str v search_value op
    | none => false
  | none => compare_str nd.value search_value op

/-- `find_best` of `match_individual`: `indi_data[BEST_EVENT_KEY].get( tag, 0 )`. -/
def find_best (ind : Individual) (tag : String) : Nat :=
  (slookup tag ind.best).getD 0

/-- Out-of-range default for name lists (parsed data never indexes out of
range: the best index always points into the list). -/
def nameDefault : NameFact := {}

/-- Key-presence test of an event fact dict (`subtag in indi_data[tag][element]`).
`_prim`/`flagged` are present exactly when the parser set them. -/
def gfact_has (f : GFact) : String → Bool
  | "value" => f.value.isSome
  | "type" => f.ftype.isSome
  | "date" => f.date.isSome
  | "plac" => f.plac.isSome
  | "note" => f.note.isSome
  | "_proof" => f.proof.isSome
  | "_prim" => f.primary
  | "flagged" => f.flagged
  | _ => false

/-- String-valued key lookup in an event fact dict.  `_prim` and `flagged`
hold non-string values, so for them the `isinstance( have, str )` test of
`compare_string` fails: modelled as `none`. -/
def gfact_get_str (f : GFact) : String → Option String
  | "value" => f.value
  | "type" => f.ftype
  | "plac" => f.plac.getD none
  | "note" => f.note
  | "_proof" => f.proof
  | _ => none

/-- `match_individual`: does one individual match the search condition?
The caller (`value_search`) has already checked `search_tag in indi_data`. -/
def match_individual (ind : Individual) (tag : String) (subtag : Option String)
    (search_value operation : String) (only_best : Bool) : Bool :=
  if tag = "name" then
    if only_best then
      compare_name (ind.names.getD (find_best ind "name") nameDefault) subtag search_value operation
    else
      ind.names.any (fun nd => compare_name nd subtag search_value operation)
  else if tag = "fams" ∨ tag = "famc" then
    ((if tag = "fams" then ind.fams else ind.famc).getD []).any
      (fun v => compare_str v search_value operation)
  else if tag = "even" ∨ tag = "fact" then
    match subtag with
    | some st =>
      match slookup tag ind.facts with
      | some evs =>
        evs.any (fun ev => decide (ev.ftype = some st) && compare_string ev.value search_value operation)
      | none => false
    | none => false
  else if tag ∈ INDI_EVENT_TAGS then
    match subtag with
    | none => false
    | some st =>
      let facts := (slookup tag ind.facts).getD []
      let idxs : List Nat :=
        if only_best && (slookup tag ind.best).isSome then [find_best ind tag]
        else List.range facts.length
      idxs.any (fun i =>
        let f := facts.getD i factDefault
        let v : Option String :=
          if gfact_has f st then
            if st = "date" then
              match f.date with
              | some d => if d.is_known then d.minB.value else none
              | none => none
            else gfact_get_str f st
          else none
        compare_string v search_value operation)
  else if tag = "xref" then
    false
  else
    match slookup tag ind.strFacts with
    | some vals =>
      let idxs : List Nat :=
        if only_best && (slookup tag ind.best).isSome then [find_best ind tag]
        else List.range vals.length
      idxs.any (fun i => compare_string (some (vals.getD i "")) search_value operation)
    | none => false

/-- Membership of a key in the dict of one parsed individual
(`tag in individual` / `search_tag in data[PARSED_INDI][indi]`). -/
def indi_has_tag (ind : Individual) (tag : String) : Bool :=
  if tag = "xref" then true
  else if tag = "name" then !ind.names.isEmpty
  else if tag = "fams" then ind.fams.isSome
  else if tag = "famc" then ind.famc.isSome
  else (slookup tag ind.facts).isSome || (slookup tag ind.strFacts).isSome

/-- `existance_match` of `find_individuals`.  With a subtag the element
scan inspects fact dicts (the shape every event-tag entry has); a `date`
subtag additionally requires the parsed date to be known.  A `None`
subtag under `even` never matches (`event['type'] == None` is false). -/
def existance_match (ind : Individual) (tag : String) (subtag : Option String)
    (only_best : Bool) : Bool :=
  if indi_has_tag ind tag then
    if tag = "even" then
      match subtag with
      | some st => ((slookup "even" ind.facts).getD []).any (fun ev => decide (ev.ftype = some st))
      | none => false
    else
      match subtag with
      | some st =>
        let facts := (slookup tag ind.facts).getD []
        let idxs : List Nat :=
          if only_best && (slookup tag ind.best).isSome then [find_best ind tag]
          else List.range facts.length
        idxs.any (fun i =>
          let f := facts.getD i factDefault
          if gfact_has f st then
            if st = "date" then (f.date.getD .unknown).is_known else true
          else false)
      | none => true
  else false

/-- Family-member key lookup (`partner in data[PARSED_FAM][fam]` /
`data[PARSED_FAM][fam][partner]`). -/
def fam_field (f : Family) : String → Option (List String)
  | "husb" => f.husb
  | "wife" => f.wife
  | "chil" => f.chil
  | _ => none

/-- Stand-in for an unmatched family id.  On validated data every id used
by `relation_search` resolves (a dangling id would raise `KeyError`). -/
def famDefault : Family := {}

/-- The family record named by an id. -/
def rel_fam (data : ParsedData) (fam : String) : Family :=
  (slookup fam data.families).getD famDefault

/-- `get_families_of` of `relation_search`: the `fams`/`famc` list of one
individual, empty when the key is absent. -/
def get_families_of (data : ParsedData) (person fam_key : String) : List String :=
  match slookup person data.individuals with
  | some ind =>
    match (if fam_key = "famc" then ind.famc else ind.fams) with
    | some l => l
    | none => []
  | none => []

/-- `relation_search` of `find_individuals`.  `l.headD ""` models the
`[0]` indexing of a (never empty) parsed member list. -/
def relation_search (data : ParsedData) (search_tag search_value : String) : List String :=
  if (slookup search_value data.individuals).isSome then
    if search_tag = "parentsof" then
      (get_families_of data search_value "famc").flatMap (fun fam =>
        ["husb", "wife"].filterMap (fun partner =>
          (fam_field (rel_fam data fam) partner).map (fun l => l.headD "")))
    else if search_tag = "childrenof" then
      (get_families_of data search_value "fams").flatMap (fun fam =>
        (fam_field (rel_fam data fam) "chil").getD [])
    else if search_tag = "partnersof" then
      (get_families_of data search_value "fams").flatMap (fun fam =>
        ["husb", "wife"].filterMap (fun partner =>
          match fam_field (rel_fam data fam) partner with
          | some l => if l.headD "" ≠ search_value then some (l.headD "") else none
          | none => none))
    else if search_tag = "siblingsof" then
      (get_families_of data search_value "famc").flatMap (fun fam =>
        ((fam_field (rel_fam data fam) "chil").getD []).flatMap (fun child =>
          if search_value ≠ child then
            (get_families_of data search_value "famc").filterMap (fun child_fam =>
              if fam = child_fam then some child else none)
          else []))
    else if search_tag = "step-siblingsof" then
      (get_families_of data search_value "famc").flatMap (fun fam =>
        ["wife", "husb"].flatMap (fun parent =>
          match fam_field (rel_fam data fam) parent with
          | some l =>
            (get_families_of data (l.headD "") "fams").flatMap (fun parent_fam =>
              if fam ≠ parent_fam then (fam_field (rel_fam data parent_fam) "chil").getD []
              else [])
          | none => []))
    else []
  else []

/-- `value_search` of `find_individuals`.  The `xref` branch converts the
search value with `int(...)` after stripping `@`/`i`/`I`; a non-numeric
(or emptied) remainder raises `ValueError`, modelled as `none`. -/
def value_search (data : ParsedData) (search_tag : String) (search_subtag : Option String)
    (search_value operation : String) (only_best : Bool) : Option (List String) :=
  if operation = "exist" then
    some ((data.individuals.filter
      (fun p => existance_match p.2 search_tag search_subtag only_best)).map (fun p => p.1))
  else if operation = "!exist" then
    some ((data.individuals.filter
      (fun p => !existance_match p.2 search_tag search_subtag only_best)).map (fun p => p.1))
  else if search_tag = "xref" then
    let search_for :=
      lcTrim (lcReplace (lcReplace (lcReplace search_value.data ['@'] []) ['i'] []) ['I'] [])
    if string_like_int search_for ∧ search_for ≠ [] then
      some ((data.individuals.filter
        (fun p => compare_int p.2.xref (Int.ofNat (charsToNat search_for)) operation)).map
          (fun p => p.1))
    else none
  else
    some ((data.individuals.filter
      (fun p => indi_has_tag p.2 search_tag &&
        match_individual p.2 search_tag search_subtag search_value operation only_best)).map
          (fun p => p.1))

/-- The `alt_operators` dict of `find_individuals`, as its insertion-order
assignment list (the key `"> ="` is assigned twice; the later `"=>"`
assignment wins, as in a Python dict). -/
def alt_operators_pairs : List (String × String) :=
  (["==", "= =", "is"].map (fun o => (o, "="))) ++
  (["not =", "not=", "not", "is not", "isnot", "<>"].map (fun o => (o, "!="))) ++
  (["> =", "=<", "= <"].map (fun o => (o, ">="))) ++
  (["= >", ">=", "> ="].map (fun o => (o, "=>"))) ++
  (["! in", "not in", "notin"].map (fun o => (o, "!in"))) ++
  (["exists"].map (fun o => (o, "exist"))) ++
  (["! exist", "not exists", "notexists", "not exist", "notexist", "! exists"].map
    (fun o => (o, "!exist")))

/-- Dict lookup in `alt_operators` (last assignment wins). -/
def alt_operators (op : String) : Option String :=
  slookup op alt_operators_pairs.reverse

/-- The `OPERATORS` whitelist of `find_individuals`. -/
def OPERATORS : List String :=
  ["=", "!=", "<", "<=", ">", "=>", "in", "!in", "exist", "!exist"]

/-- The relation-name stems of the `ALT_TAG` loop. -/
def rel_pre_list : List String := ["partners", "parents", "children", "siblings", "step-siblings"]

/-- The relation-name suffix variants of the `ALT_TAG` loop. -/
def rel_suf_list : List String := [" of", "-of", "_of"]

/-- The `ALT_TAG` dict: full-word synonyms plus the relation-name
variants generated by the loop (no key is duplicated). -/
def ALT_TAG_pairs : List (String × String) :=
  [("birth", "birt"), ("born", "birt"), ("death", "deat"), ("died", "deat"), ("event", "even")] ++
  rel_pre_list.flatMap (fun p => rel_suf_list.map (fun s => (p ++ s, p ++ "of")))

/-- `search_type = 'relation'`: the lowered search tag is one of the
relation names or variants. -/
def is_relation_tag (t : String) : Bool :=
  rel_pre_list.any (fun p => rel_suf_list.any (fun s =>
    decide (t = p ++ "of") || decide (t = p ++ s)))

/-- The `ALT_SUBTAG` dict. -/
def ALT_SUBTAG_pairs : List (String × String) :=
  [("place", "plac"), ("surname", "surn"), ("given", "givn"), ("forname", "givn")]

/-- `ALT_TAG` application (identity off the dict). -/
def alt_tag_map (t : String) : String := (slookup t ALT_TAG_pairs).getD t

/-- `ALT_SUBTAG` application (identity off the dict). -/
def alt_subtag_map (t : String) : String := (slookup t ALT_SUBTAG_pairs).getD t

/-- Lines 2812-2829 of the source: split the search tag at the first dot
(an empty part raises `ValueError`, modelled as `none`) and apply the
`ALT_TAG`/`ALT_SUBTAG` synonym maps. -/
def resolve_search_tag (t : String) : Option (String × Option String) :=
  match lcSplitFirst '.' t.data with
  | some (a, b) =>
    if a = [] then none
    else if b = [] then none
    else some (alt_tag_map ⟨a⟩, some (alt_subtag_map ⟨b⟩))
  | none => some (alt_tag_map t, none)

/-- Lines 2831-2837 of the source: with no explicit subtag, a `birt`/`deat`
search under a non-existence operator whose value is an 8-digit all-digit
string gets the implicit subtag `date`. -/
def default_date_subtag (tag : String) (subtag : Option String)
    (operation search_value : String) : Option String :=
  if subtag = none ∧ (tag = "birt" ∨ tag = "deat") then
    if lcHasSub "exist".data operation.data = true then subtag
    else if string_like_int search_value.data ∧ search_value.data.length = 8 then some "date"
    else subtag
  else subtag

/-- Operator normalization through the `alt_operators` dict. -/
def fi_norm_op (op1 : String) : String :=
  match alt_operators op1 with
  | some o => o
  | none => op1

/-- The body of `find_individuals` after tag/operator lowering: operator
whitelist assert, non-empty-tag assert, tag resolution, implicit `date`
subtag, then relation or value search (`none` models `AssertionError` /
`ValueError`; the `could_be_search_typo` advisory only prints). -/
def fi_main (data : ParsedData) (tag1 value op2 : String) (b : Bool) : Option (List String) :=
  if op2 ∈ OPERATORS then
    if tag1 = "" then none
    else
      match resolve_search_tag tag1 with
      | none => none
      | some (tag2, subtag) =>
        if is_relation_tag tag1 = true then some (relation_search data tag2 value)
        else value_search data tag2 (default_date_subtag tag2 subtag op2 value) value op2 b
  else none

/-- `find_individuals( data, search_tag, search_value, operation, only_best )`:
the list of matching individual ids, or `none` for an assert/`ValueError`
failure. -/
def find_individuals (data : ParsedData) (search_tag search_value operation : String)
    (only_best : Bool) : Option (List String) :=
  fi_main data ⟨lcTrim (lcLower search_tag.data)⟩ search_value
    (fi_norm_op ⟨lcTrim (lcLower operation.data)⟩) only_best

/-- A known, non-range parsed date with comparable value `19000101`. -/
def c9date : date_structure :=
  .known "1 jan 1900" false false
    ⟨"", some "19000101", some 1900⟩ ⟨"", some "19000101", some 1900⟩

/-- An individual carrying a dated birth and a dated burial (only the
birth is best-selectable). -/
def c9indi : Individual :=
  { xref := 1,
    names := [{ value := "A /B/" }],
    facts := [("birt", [{ value := some "", date := some c9date }]),
              ("buri", [{ value := some "", date := some c9date }])],
    best := [("birt", 0)] }

/-- A one-individual document for concrete query evaluations. -/
def c9data : ParsedData := ⟨[("i1", c9indi)], []⟩

/-! ### The privatized writer (`output_privatized`) -/

/-- Uppercase one ASCII character (Python `str.upper`). -/
def chUpper (c : Char) : Char :=
  if 97 ≤ c.toNat ∧ c.toNat ≤ 122 then Char.ofNat (c.toNat - 32) else c

/-- Uppercase an ASCII character list. -/
def lcUpper (s : List Char) : List Char := s.map chUpper

/-- Python `str( year )` where the year slot may hold `None`. -/
def str_of_opt_year : Option Nat → String
  | some n => ⟨natChars (n + 1) n⟩
  | none => "None"

/-- `extract_indi_id`: strip `@`, lowercase, strip spaces. -/
def extract_indi_id (tag : String) : String :=
  ⟨lcReplace (lcLower (lcReplace tag.data ['@'] [])) [' '] []⟩

/-- `extract_fam_id` (same transformation as `extract_indi_id`). -/
def extract_fam_id (tag : String) : String :=
  ⟨lcReplace (lcLower (lcReplace tag.data ['@'] [])) [' '] []⟩

/-- `get_parsed_year`: the year-only rendition of a structured date
(empty when unknown; both modifiers uppercased; a range shows both
years). -/
def get_parsed_year (d : date_structure) : String :=
  match d with
  | .unknown => ""
  | .known _ _ is_range dmin dmax =>
    let m1 := lcUpper dmin.modifier.data
    let v1 := (if m1 = [] then [] else m1 ++ [' ']) ++ (str_of_opt_year dmin.year).data
    if is_range then
      let m2 := lcUpper dmax.modifier.data
      ⟨v1 ++ [' '] ++ (if m2 = [] then [] else m2 ++ [' ']) ++ (str_of_opt_year dmax.year).data⟩
    else ⟨v1⟩

/-- `get_reduced_date`: follow a `{key, index}` back-pointer into the
parsed fact lists and render the year-only date (empty when the fact
has no date key).  Parsed back-pointers always resolve; the defaults
stand in for the `KeyError`/`IndexError` a dangling one would raise. -/
def get_reduced_date (lookup : String × Nat) (parsed_facts : List (String × List GFact)) : String :=
  let f := ((slookup lookup.1 parsed_facts).getD []).getD lookup.2 factDefault
  match f.date with
  | some d => get_parsed_year d
  | none => ""

mutual

/-- One node of `output_section_no_dates`: skip `date` nodes, otherwise
print the line and recurse. -/
def output_no_dates_node : LineTree → List String
  | .mk i tg _ sub _ => if tg = "date" then [] else i :: output_section_no_dates sub

/-- `output_section_no_dates`: a section with every `date` sub-section
skipped. -/
def output_section_no_dates : List LineTree → List String
  | [] => []
  | t :: rest => output_no_dates_node t ++ output_section_no_dates rest

end

/-- `parts[0]` of `line.split( ' ', 2 )` (parsed lines always carry a
level and a tag, so the defaults are never reached on parsed data). -/
def line_part0 (l : String) : List Char := (lcSplitMax2 l.data).getD 0 []

/-- `parts[1]` of `line.split( ' ', 2 )`. -/
def line_part1 (l : String) : List Char := (lcSplitMax2 l.data).getD 1 []

/-- The privatized rendition of one event sub-record (`level1`) of an
individual or family: under `PRIVATIZE_MAX` a custom `even` keeps its
line with dates skipped while any other event collapses to
`level tag Y`; under partial privatization each `date` line is replaced
by the reduced date from the parsed data. -/
def priv_event_lines (level1 : LineTree) (priv_setting : Nat)
    (parsed_facts : List (String × List GFact)) : List String :=
  if priv_setting = PRIVATIZE_MAX then
    if (⟨lcLower (line_part1 level1.inLine)⟩ : String) = "even" then
      level1.inLine :: output_section_no_dates level1.sub
    else
      [⟨line_part0 level1.inLine ++ [' '] ++ line_part1 level1.inLine ++ " Y".data⟩]
  else
    level1.inLine ::
      (level1.sub.map (fun level2 =>
        (if (⟨lcLower (line_part1 level2.inLine)⟩ : String) = "date" then
          [(⟨line_part0 level2.inLine ++ [' '] ++ line_part1 level2.inLine ++ [' '] ++
             (get_reduced_date (level1.parsed.getD ("", 0)) parsed_facts).data⟩ : String)]
        else [level2.inLine]) ++ output_section level2.sub)).flatten

/-- `output_privatized_section`: the level-0 line, then each sub-record
either privatized (when its tag is in the event list) or copied
verbatim. -/
def output_privatized_section (level0 : LineTree) (priv_setting : Nat)
    (event_list : List String) (parsed_facts : List (String × List GFact)) : List String :=
  level0.inLine ::
    (level0.sub.map (fun level1 =>
      if (⟨lcLower (line_part1 level1.inLine)⟩ : String) ∈ event_list then
        priv_event_lines level1 priv_setting parsed_facts
      else
        output_sub_section level1)).flatten

/-- `output_privatized_indi`. -/
def output_privatized_indi (level0 : LineTree) (priv_setting : Nat) (ind : Individual) :
    List String :=
  output_privatized_section level0 priv_setting INDI_EVENT_TAGS ind.facts

/-- `output_privatized_fam`. -/
def output_privatized_fam (level0 : LineTree) (priv_setting : Nat) (f : Family) :
    List String :=
  output_privatized_section level0 priv_setting FAM_EVENT_TAGS f.facts

/-- `check_indi_priv` (via `check_section_priv`): the privatize flag of
one individual; `none` models the `KeyError` on an unmatched id. -/
def check_indi_priv (pd : ParsedData) (indi : String) : Option Nat :=
  (slookup indi pd.individuals).map (fun i => i.priv)

/-- `check_fam_priv` (via `check_section_priv`). -/
def check_fam_priv (pd : ParsedData) (fam : String) : Option Nat :=
  (slookup fam pd.families).map (fun f => f.priv)

/-- The individual-section loop of `output_privatized`: per record the
privatize flag decides between a verbatim copy (`output_sub_section`)
and the privatized form; an id that resolves to no parsed individual
raises `KeyError` (`none`). -/
def out_priv_indi_records (pd : ParsedData) : List LineTree → Option (List String)
  | [] => some []
  | t :: rest =>
    match slookup (extract_indi_id t.tag) pd.individuals with
    | none => none
    | some ind =>
      match out_priv_indi_records pd rest with
      | none => none
      | some tail =>
        some ((if ind.priv = PRIVATIZE_OFF then output_sub_section t
               else output_privatized_indi t ind.priv ind) ++ tail)

/-- The family-section loop of `output_privatized`. -/
def out_priv_fam_records (pd : ParsedData) : List LineTree → Option (List String)
  | [] => some []
  | t :: rest =>
    match slookup (extract_fam_id t.tag) pd.families with
    | none => none
    | some f =>
      match out_priv_fam_records pd rest with
      | none => none
      | some tail =>
        some ((if f.priv = PRIVATIZE_OFF then output_sub_section t
               else output_privatized_fam t f.priv f) ++ tail)

/-- The section concatenation of `output_privatized`: identical to
`output_original` except that the individual and family sections carry
the per-record privatized lines. -/
def output_privatized_join (st : ReaderState) (indiOut famOut : List String) : List String :=
  ((SECTION_NAMES.filter (fun s => ¬ (s = "trlr"))).map
      (fun s => if s = "indi" then indiOut else if s = "fam" then famOut
                else output_section (st.secFun s))).flatten ++
    ((st.secKeys.filter (fun s => s ∉ SECTION_NAMES)).map
      (fun s => output_section (st.secFun s))).flatten ++
    output_section (st.secFun "trlr")

/-- The lines `output_privatized` writes: known sections in canonical
order with individuals and families privatized per record, unknown
sections, then the trailer (`none` models a `KeyError` on an unparsed
record id).  As in `output_original`, the version lead sequence goes to
standard output, not to the file. -/
def output_privatized (st : ReaderState) (pd : ParsedData) : Option (List String) :=
  match out_priv_indi_records pd (st.secFun "indi"),
        out_priv_fam_records pd (st.secFun "fam") with
  | some indiOut, some famOut => some (output_privatized_join st indiOut famOut)
  | _, _ => none

/-- A concrete reader state for the C10 witness (header with version,
one individual, one family, trailer). -/
def c10st : ReaderState :=
  { initReaderState with
    secFun := fun s =>
      if s = "head" then
        [.mk "0 HEAD" "head" none
          [.mk "1 GEDC" "gedc" none
            [.mk "2 VERS 5.5.1" "vers" (some "5.5.1") [] none] none] none]
      else if s = "indi" then
        [.mk "0 @I1@ INDI" "@i1@" (some "INDI")
          [.mk "1 FAMS @F1@" "fams" (some "@F1@") [] none] none]
      else if s = "fam" then
        [.mk "0 @F1@ FAM" "@f1@" (some "FAM") [] none]
      else if s = "trlr" then
        [.mk "0 TRLR" "trlr" none [] none]
      else [],
    sect := "trlr", version := "5.5.1", final_section := "trlr" }

/-- Parsed records for the C10 witness, initially fully privatized. -/
def c10pd : ParsedData :=
  ⟨[("i1", { xref := 1, fams := some ["f1"], priv := PRIVATIZE_MAX })],
   [("f1", { xref := 1, husb := some ["i1"], priv := PRIVATIZE_MAX })]⟩

/-! MARKER-END-DEFINITIONS (further definitions are inserted above) -/

/-! ## Helper lemmas -/

/-- A tag outside the single-event list never gets a best entry. -/
theorem set_best_events_lookup_not {tag : String} {facts : List (String × List GFact)}
    (L : List String) (h : tag ∉ L) :
    slookup tag (set_best_events L facts) = none := by
  induction L with
  | nil => rfl
  | cons t rest ih =>
    have hne : t ≠ tag := fun he => h (he ▸ List.mem_cons_self t rest)
    have h' : tag ∉ rest := fun hm => h (List.mem_cons_of_mem _ hm)
    cases hsl : slookup t facts with
    | none => simpa only [set_best_events, hsl] using ih h'
    | some sections =>
      cases hbe : best_event_index sections with
      | none => simpa only [set_best_events, hsl, hbe] using ih h'
      | some i => simp [set_best_events, hsl, hbe, slookup, hne, ih h']

/-- Looking a listed tag up in the best map run by `set_best_events`
computes exactly `best_event_index` of that tag's candidates. -/
theorem set_best_events_lookup {tag : String} {facts : List (String × List GFact)}
    (L : List String) (h : tag ∈ L) :
    slookup tag (set_best_events L facts) = (slookup tag facts).bind best_event_index := by
  induction L with
  | nil => cases h
  | cons t rest ih =>
    by_cases he : t = tag
    · subst he
      cases hl : slookup t facts with
      | none =>
        by_cases hr : t ∈ rest
        · simpa only [set_best_events, hl] using ih hr
        · simp [set_best_events, set_best_events_lookup_not rest hr, hl]
      | some sections =>
        cases hb : best_event_index sections with
        | none =>
          by_cases hr : t ∈ rest
          · simpa only [set_best_events, hl, hb] using ih hr
          · simp [set_best_events, set_best_events_lookup_not rest hr, hl, hb]
        | some i => simp [set_best_events, slookup, hl, hb]
    · have h' : tag ∈ rest := by
        rcases List.mem_cons.mp h with h1 | h1
        · exact absurd h1.symm he
        · exact h1
      cases hl : slookup t facts with
      | none => simpa only [set_best_events, hl] using ih h'
      | some sections =>
        cases hb : best_event_index sections with
        | none => simpa only [set_best_events, hl, hb] using ih h'
        | some i => simp [set_best_events, hl, hb, slookup, he, ih h']

/-- Full characterisation of the scan loop of `set_best_events`: either no
candidate beats the incoming best (state returned unchanged, all scores at
most the incoming best), or the result is the first maximal candidate. -/
theorem best_event_go_chars :
    ∀ (l : List GFact) (i : Nat) (best : Int) (found : Nat),
      (best_event_go l i best found = (best, found) ∧
        ∀ j, j < l.length → event_proof_score (l.getD j factDefault) ≤ best) ∨
      (∃ j, j < l.length ∧ (best_event_go l i best found).2 = i + j ∧
        (best_event_go l i best found).1 = event_proof_score (l.getD j factDefault) ∧
        best < (best_event_go l i best found).1 ∧
        (∀ k, k < l.length →
          event_proof_score (l.getD k factDefault) ≤ (best_event_go l i best found).1) ∧
        (∀ k, k < j →
          event_proof_score (l.getD k factDefault) < (best_event_go l i best found).1))
  | [], _, _, _ => Or.inl ⟨rfl, fun j hj => absurd hj (by simp)⟩
  | f :: rest, i, best, found => by
    simp only [best_event_go]
    by_cases hc : best < event_proof_score f
    · simp only [if_pos hc]
      rcases best_event_go_chars rest (i + 1) (event_proof_score f) i with
        ⟨heq, hall⟩ | ⟨j, hj, h2, h1, hlt, hall, hfirst⟩
      · right
        refine ⟨0, by simp, ?_, ?_, ?_, ?_, ?_⟩
        · rw [heq]; simp
        · rw [heq]; simp
        · rw [heq]; simpa using hc
        · intro k hk
          rw [heq]
          match k with
          | 0 => simp
          | k + 1 => simpa using hall k (by simpa using hk)
        · intro k hk; cases hk
      · right
        refine ⟨j + 1, by simpa using hj, ?_, ?_, ?_, ?_, ?_⟩
        · rw [h2]; omega
        · simpa using h1
        · exact lt_trans hc hlt
        · intro k hk
          match k with
          | 0 => simpa using le_of_lt hlt
          | k + 1 => simpa using hall k (by simpa using hk)
        · intro k hk
          match k with
          | 0 => simpa using hlt
          | k + 1 => simpa using hfirst k (by omega)
    · simp only [if_neg hc]
      push_neg at hc
      rcases best_event_go_chars rest (i + 1) best found with
        ⟨heq, hall⟩ | ⟨j, hj, h2, h1, hlt, hall, hfirst⟩
      · left
        refine ⟨heq, ?_⟩
        intro k hk
        match k with
        | 0 => simpa using hc
        | k + 1 => simpa using hall k (by simpa using hk)
      · right
        refine ⟨j + 1, by simpa using hj, ?_, ?_, ?_, ?_, ?_⟩
        · rw [h2]; omega
        · simpa using h1
        · exact hlt
        · intro k hk
          match k with
          | 0 => simpa using le_of_lt (lt_of_le_of_lt hc hlt)
          | k + 1 => simpa using hall k (by simpa using hk)
        · intro k hk
          match k with
          | 0 => simpa using lt_of_le_of_lt hc hlt
          | k + 1 => simpa using hfirst k (by omega)

/-- A recorded best index is the first index of maximal score, and its
score beats the disproven score 0. -/
theorem best_event_index_first_max (l : List GFact) (i : Nat)
    (h : best_event_index l = some i) :
    i < l.length ∧ 0 < event_proof_score (l.getD i factDefault) ∧
    (∀ j, j < l.length →
      event_proof_score (l.getD j factDefault) ≤ event_proof_score (l.getD i factDefault)) ∧
    (∀ j, j < i →
      event_proof_score (l.getD j factDefault) < event_proof_score (l.getD i factDefault)) := by
  unfold best_event_index at h
  rcases best_event_go_chars l 0 (-1) 0 with ⟨heq, _⟩ | ⟨j, hj, h2, h1, _, hall, hfirst⟩
  · rw [heq] at h; simp at h
  · by_cases hpos : 0 < (best_event_go l 0 (-1) 0).1
    · rw [if_pos hpos] at h
      have e1 : (best_event_go l 0 (-1) 0).2 = i := Option.some.inj h
      have hij : i = j := by omega
      subst hij
      refine ⟨hj, ?_, ?_, ?_⟩
      · rw [← h1]; exact hpos
      · intro k hk; rw [← h1]; exact hall k hk
      · intro k hk; rw [← h1]; exact hfirst k hk
    · rw [if_neg hpos] at h; cases h

/-- If every candidate scores at most the disproven score, no best index
is recorded. -/
theorem best_event_index_none_of_le_zero (l : List GFact)
    (h : ∀ f ∈ l, event_proof_score f ≤ 0) : best_event_index l = none := by
  unfold best_event_index
  rcases best_event_go_chars l 0 (-1) 0 with ⟨heq, _⟩ | ⟨j, hj, _, h1, _, _, _⟩
  · rw [heq]; norm_num
  · have hmem : l.getD j factDefault ∈ l := by
      rw [List.getD_eq_getElem l factDefault hj]
      exact List.getElem_mem hj
    have hle := h _ hmem
    rw [← h1] at hle
    rw [if_neg (not_lt.mpr hle)]

/-- A disproven fact scores 0 whether or not it is marked primary. -/
theorem score_of_disproven {f : GFact} (h : marked_disproven f) :
    event_proof_score f = 0 := by
  obtain ⟨p, hp, hl⟩ := h
  unfold event_proof_score
  rw [hp]
  simp only [hl, EVENT_PROOF_VALUES, if_pos]
  cases f.primary <;> simp

/-- A fact without a proof marker scores the default 1. -/
theorem score_of_default {f : GFact} (h : marked_default f) :
    event_proof_score f = 1 := by
  unfold event_proof_score
  rw [h]

/-- A proven fact scores 2, or 20 when also marked primary. -/
theorem score_of_proven {f : GFact} (h : marked_proven f) :
    event_proof_score f = if f.primary then 20 else 2 := by
  obtain ⟨p, hp, hl⟩ := h
  unfold event_proof_score
  rw [hp]
  simp only [hl, EVENT_PROOF_VALUES]
  norm_num
  cases f.primary <;> simp

/-! ## Claim theorems -/

/-- C1: `date_to_structure` on `"7 nov 1996"` yields a known, non-range
date with `min = max = {modifier '', value '19961107', year 1996}`; on
`"nov 1996"` a known date with value `'19961101'` and the implicit about
modifier `ABT` added to both `min` and `max`; on `""` an unknown date;
and on `"bet 1 jan 1900 and 1 jan 1910"` a range with modifiers
`bet`/`and` and values `'19000101'`/`'19100101'`. -/
theorem claim_C1 :
    date_to_structure false (some "7 nov 1996") =
      .ok (.known "7 nov 1996" false false
        ⟨"", some "19961107", some 1996⟩ ⟨"", some "19961107", some 1996⟩) ∧
    date_to_structure false (some "nov 1996") =
      .ok (.known "nov 1996" false false
        ⟨"ABT", some "19961101", some 1996⟩ ⟨"ABT", some "19961101", some 1996⟩) ∧
    date_to_structure false (some "") = .ok .unknown ∧
    date_to_structure false (some "bet 1 jan 1900 and 1 jan 1910") =
      .ok (.known "bet 1 jan 1900 and 1 jan 1910" false true
        ⟨"bet", some "19000101", some 1900⟩ ⟨"and", some "19100101", some 1910⟩) :=
  ⟨by decide, by decide, by decide, by decide⟩

/-- C2: over the best-selectable tags (name/sex/birt/deat of individuals,
marr/div/anul of families), a candidate list marked disproven, default,
proven records the proven candidate's index 2; a list whose candidates
are all marked disproven records no best index for the tag; and a
recorded best index is always the first (lowest) index of maximal score. -/
theorem claim_C2 :
    (∀ (L : List String) (tag : String) (facts : List (String × List GFact))
        (f1 f2 f3 : GFact),
        (L = INDI_SINGLE_EVENTS ∨ L = FAM_SINGLE_EVENTS) → tag ∈ L →
        slookup tag facts = some [f1, f2, f3] →
        marked_disproven f1 → marked_default f2 → marked_proven f3 →
        slookup tag (set_best_events L facts) = some 2) ∧
    (∀ (L : List String) (tag : String) (facts : List (String × List GFact))
        (l : List GFact),
        (L = INDI_SINGLE_EVENTS ∨ L = FAM_SINGLE_EVENTS) → tag ∈ L →
        slookup tag facts = some l →
        (∀ f ∈ l, marked_disproven f) →
        slookup tag (set_best_events L facts) = none) ∧
    (∀ (l : List GFact) (i : Nat), best_event_index l = some i →
        i < l.length ∧
        (∀ j, j < l.length →
          event_proof_score (l.getD j factDefault) ≤
            event_proof_score (l.getD i factDefault)) ∧
        (∀ j, j < i →
          event_proof_score (l.getD j factDefault) <
            event_proof_score (l.getD i factDefault))) := by
  refine ⟨?_, ?_, ?_⟩
  · intro L tag facts f1 f2 f3 _ hmem hfacts hd hm hp
    rw [set_best_events_lookup L hmem, hfacts]
    have h1 := score_of_disproven hd
    have h2 := score_of_default hm
    have h3 := score_of_proven hp
    show best_event_index [f1, f2, f3] = some 2
    cases hpr : f3.primary <;>
      rw [hpr] at h3 <;>
      norm_num at h3 <;>
      norm_num [best_event_index, best_event_go, h1, h2, h3]
  · intro L tag facts l _ hmem hfacts hall
    rw [set_best_events_lookup L hmem, hfacts]
    show best_event_index l = none
    exact best_event_index_none_of_le_zero l
      (fun f hf => le_of_eq (score_of_disproven (hall f hf)))
  · intro l i h
    obtain ⟨hlen, _, hmax, hfirst⟩ := best_event_index_first_max l i h
    exact ⟨hlen, hmax, hfirst⟩

/-- Witness for C2 at a concrete record: a `birt` list marked
disproven/default/proven records best index 2. -/
theorem claim_C2_witness :
    slookup "birt" (set_best_events INDI_SINGLE_EVENTS
      [("birt", [{ proof := some "disproven" }, {}, { proof := some "proven" }])]) =
      some 2 :=
  claim_C2.1 INDI_SINGLE_EVENTS "birt" _
    { proof := some "disproven" } {} { proof := some "proven" }
    (Or.inl rfl) (by decide) rfl
    ⟨"disproven", rfl, rfl⟩ rfl ⟨"proven", rfl, rfl⟩

/-- C3 counterexample: for a candidate list holding a plain default fact
and a default fact marked primary (no proof marker), the claimed score
formula gives the primary fact 10 and would select index 1, but the code
ignores the primary marker without a proof tag and records index 0. -/
theorem claim_C3_counterexample :
    best_event_index c3facts = some 0 ∧
    claimed_best_index c3facts = some 1 ∧
    event_proof_score (c3facts.getD 1 factDefault) = 1 ∧
    claimed_combined_score (c3facts.getD 1 factDefault) = 10 :=
  ⟨by decide, by decide, by decide, by decide⟩

/-- C3 (amended): a candidate's combined score is its proof value
(default 1), multiplied by 10 only when the fact is marked primary AND
carries a proof marker; the recorded best index is the first candidate
attaining the maximal such score, and only when that maximum exceeds the
disproven score 0 (otherwise no index is recorded). -/
theorem claim_C3_amended :
    (∀ f : GFact, event_proof_score f = amended_combined_score f) ∧
    (∀ (l : List GFact) (i : Nat), best_event_index l = some i →
      0 < event_proof_score (l.getD i factDefault) ∧
      i < l.length ∧
      (∀ j, j < l.length →
        event_proof_score (l.getD j factDefault) ≤
          event_proof_score (l.getD i factDefault)) ∧
      (∀ j, j < i →
        event_proof_score (l.getD j factDefault) <
          event_proof_score (l.getD i factDefault))) ∧
    (∀ l : List GFact, (∀ f ∈ l, event_proof_score f ≤ 0) →
      best_event_index l = none) := by
  refine ⟨?_, ?_, ?_⟩
  · intro f
    unfold event_proof_score amended_combined_score
    cases hp : f.proof with
    | none => simp [hp]
    | some p =>
      simp only [hp, Option.isSome_some, and_true]
      cases hq : f.primary <;> simp [hq, mul_comm]
  · intro l i h
    obtain ⟨hlen, hpos, hmax, hfirst⟩ := best_event_index_first_max l i h
    exact ⟨hpos, hlen, hmax, hfirst⟩
  · exact best_event_index_none_of_le_zero

/-- Witness for the amended C3 at a concrete list: applying the theorem
to a single proven candidate. -/
theorem claim_C3_witness :
    0 < event_proof_score (([{ proof := some "proven" }] : List GFact).getD 0 factDefault) :=
  (claim_C3_amended.2.1 [{ proof := some "proven" }] 0 (by decide)).1

/-- C4 falsified on the code: validating `c4doc` (individual `i1` with
spouse-families `f1`, `f2`, both missing) removes only `f1` — the
remove-while-iterating loop skips `f2`, which remains dangling after the
run, with a single warning recorded for the single removal. -/
theorem claim_C4_bug :
    (slookup "i1" (check_parsed_sections c4doc).1.individuals).map Individual.fams =
      some (some ["f2"]) ∧
    slookup "f2" (check_parsed_sections c4doc).1.families = none ∧
    (check_parsed_sections c4doc).2.length = 1 :=
  ⟨by decide, by decide, by decide⟩

/-- C5 falsified on the code: a second run of the Cross-Reference
Validator on the already-validated `c4doc` removes the reference the
first run skipped and records a new warning, so validation is not
idempotent. -/
theorem claim_C5_bug :
    (check_parsed_sections (check_parsed_sections c4doc).1).2 ≠ [] ∧
    (check_parsed_sections (check_parsed_sections c4doc).1).1 ≠
      (check_parsed_sections c4doc).1 :=
  ⟨by decide, by decide⟩

/-- No structured date carries a `'flagged'` key: the parse stores the
flagged marker on the fact record, not inside the date dict. -/
theorem date_hasKey_flagged_false (d : date_structure) :
    d.hasKey "flagged" = false := by
  cases d <;> rfl

/-- Hence the first loop of `compute_privatize_flag` is dead code: it
always returns its incoming result. -/
theorem flagged_date_loop_id (ind : Individual) :
    ∀ (keys : List String) (r : Nat), flagged_date_loop ind keys r = r := by
  intro keys
  induction keys with
  | nil => intro r; rfl
  | cons key rest ih =>
    intro r
    cases hsl : slookup key ind.facts with
    | none => simp only [flagged_date_loop, hsl]; exact ih r
    | some sections =>
      cases hd : (sections.getD 0 factDefault).date with
      | none => simp only [flagged_date_loop, hsl, hd]; exact ih r
      | some d =>
        simp only [flagged_date_loop, hsl, hd, date_hasKey_flagged_false d,
          Bool.false_eq_true, if_false]
        exact ih r

/-- Looking up a key after mapping the values of an association list. -/
theorem slookup_map_pair {β γ : Type} (f : β → γ) (k : String) :
    ∀ l : List (String × β),
      slookup k (l.map (fun kv => (kv.1, f kv.2))) = (slookup k l).map f := by
  intro l
  induction l with
  | nil => rfl
  | cons kv rest ih =>
    by_cases h : kv.1 = k
    · simp [slookup, h]
    · simp [slookup, h, ih]

/-- C7 counterexample: for `c7indi` (death dated 1 jan 2020, after the
20-year cutoff 20060101, together with a burial dated 1 jan 1995, at or
before it), a death-family event has a known date whose latest bound is
at or before now minus 20 years, yet the computed level is MIN, not OFF:
the code only compares the first present death key (`deat`) and breaks. -/
theorem claim_C7_counterexample :
    compute_privatize_flag "20060101" "19020101" c7indi = PRIVATIZE_MIN ∧
    PRIVATIZE_MIN ≠ PRIVATIZE_OFF ∧
    (((slookup "buri" c7indi.facts).getD []).getD 0 factDefault).date =
      some (.known "1 jan 1995" false false
        ⟨"", some "19950101", some 1995⟩ ⟨"", some "19950101", some 1995⟩) ∧
    lcLe "19950101".data "20060101".data = true :=
  ⟨by decide, by decide, by decide, by decide⟩

/-- C7 (amended): `set_privatize_flag` stores
`compute_privatize_flag` of every individual, and the computed level is
OFF when the first death-family key in the order death, burial,
cremation whose best fact has a known date compares at-or-before the
death limit (e.g. a burial dated 30 years ago as the only death-family
evidence); MIN when the only death-family evidence is a flagged
known-but-undated death (no dated birth evidence present); and MAX when
the individual has no death-family and no birth-family evidence. -/
theorem claim_C7 :
    (∀ (dl bl : String) (data : ParsedData) (id : String),
      slookup id (set_privatize_flag dl bl data).individuals =
        (slookup id data.individuals).map
          (fun ind => { ind with priv := compute_privatize_flag dl bl ind })) ∧
    (∀ (dl bl : String) (ind : Individual) (sections : List GFact)
        (i : String) (m r : Bool) (mn mx : date_endpoint),
      slookup "deat" ind.facts = none →
      slookup "buri" ind.facts = some sections →
      (sections.getD ((slookup "buri" ind.best).getD 0) factDefault).date =
        some (.known i m r mn mx) →
      lcLe (mx.value.getD "").data dl.data = true →
      compute_privatize_flag dl bl ind = PRIVATIZE_OFF) ∧
    (∀ (dl bl : String) (ind : Individual) (sections : List GFact),
      slookup "deat" ind.facts = some sections →
      (sections.getD ((slookup "deat" ind.best).getD 0) factDefault).date =
        some .unknown →
      (sections.getD 0 factDefault).flagged = true →
      slookup "buri" ind.facts = none → slookup "crem" ind.facts = none →
      slookup "birt" ind.facts = none → slookup "bapm" ind.facts = none →
      slookup "chr" ind.facts = none →
      compute_privatize_flag dl bl ind = PRIVATIZE_MIN) ∧
    (∀ (dl bl : String) (ind : Individual),
      slookup "deat" ind.facts = none → slookup "buri" ind.facts = none →
      slookup "crem" ind.facts = none →
      slookup "birt" ind.facts = none → slookup "bapm" ind.facts = none →
      slookup "chr" ind.facts = none →
      compute_privatize_flag dl bl ind = PRIVATIZE_MAX) := by
  refine ⟨?_, ?_, ?_, ?_⟩
  · intro dl bl data id
    exact slookup_map_pair
      (fun ind => { ind with priv := compute_privatize_flag dl bl ind })
      id data.individuals
  · intro dl bl ind sections i m r mn mx h_deat h_buri h_date h_le
    simp only [compute_privatize_flag, flagged_date_loop_id, death_date_loop,
      h_deat, h_buri, h_date, h_le, if_true]
  · intro dl bl ind sections h_deat h_date _ h_buri h_crem h_birt h_bapm h_chr
    simp only [compute_privatize_flag, flagged_date_loop_id, death_date_loop,
      h_deat, h_date, h_buri, h_crem, birth_date_loop, h_birt, h_bapm, h_chr]
    norm_num
  · intro dl bl ind h_deat h_buri h_crem h_birt h_bapm h_chr
    simp only [compute_privatize_flag, flagged_date_loop_id, death_date_loop,
      h_deat, h_buri, h_crem, birth_date_loop, h_birt, h_bapm, h_chr]
    norm_num

/-- Witness for the amended C7: the burial-only individual computes OFF
under the cutoff 20060101. -/
theorem claim_C7_witness :
    compute_privatize_flag "20060101" "19020101" c7buriIndi = PRIVATIZE_OFF :=
  claim_C7.2.1 "20060101" "19020101" c7buriIndi
    [{ date := some (.known "1 jan 1995" false false
        ⟨"", some "19950101", some 1995⟩ ⟨"", some "19950101", some 1995⟩) }]
    "1 jan 1995" false false
    ⟨"", some "19950101", some 1995⟩ ⟨"", some "19950101", some 1995⟩
    (by decide) (by decide) (by decide) (by decide)


/-- A cons tree list always has a last element. -/
theorem lastTree_ne_none : ∀ (t : LineTree) (ts : List LineTree),
    ¬ (lastTree (t :: ts) = none)
  | _, [] => by simp [lastTree]
  | _, t' :: rest => lastTree_ne_none t' rest

/-- A nonempty tree list loses exactly one element to `dropLastTree`. -/
theorem dropLastTree_length :
    ∀ ts : List LineTree, ¬ (lastTree ts = none) →
      (dropLastTree ts).length + 1 = ts.length
  | [], h => absurd rfl h
  | [_], _ => rfl
  | t :: t' :: rest, _ => by
    have ih := dropLastTree_length (t' :: rest) (lastTree_ne_none t' rest)
    show (t :: dropLastTree (t' :: rest)).length + 1 = (t :: t' :: rest).length
    simp only [List.length_cons] at ih ⊢
    omega

/-- Appending at depth one or deeper modifies the last tree in place and
keeps the section's record count. -/
theorem append_at_depth_length {d : Nat} {ts : List LineTree} {t : LineTree}
    {ts' : List LineTree} (h : append_at_depth (d + 1) ts t = some ts') :
    ts'.length = ts.length := by
  cases hl : lastTree ts with
  | none => simp only [append_at_depth, hl] at h; cases h
  | some last =>
    cases ha : append_at_depth d last.sub t with
    | none => simp only [append_at_depth, hl, ha] at h; cases h
    | some s =>
      simp only [append_at_depth, hl, ha, Option.some.injEq] at h
      subst h
      have hlen := dropLastTree_length ts (by rw [hl]; simp)
      simp only [List.length_append, List.length_singleton]
      omega

/-- Effect of one level-0 line on the head and trailer record counts and
on the tracked final section. -/
theorem process0_ok_effects {st st' : ReaderState} {line : String}
    (h : process0 st line = .ok st') :
    (st'.secFun "head").length = (st.secFun "head").length +
      (if classify0 (lcLower line.data) = "head" then 1 else 0) ∧
    (st'.secFun "trlr").length = (st.secFun "trlr").length +
      (if classify0 (lcLower line.data) = "trlr" then 1 else 0) ∧
    st'.final_section = classify0 (lcLower line.data) := by
  simp only [process0] at h
  simp only [classify0]
  set cf := classify0_full (lcLower line.data) with hcf
  clear_value cf
  obtain ⟨sect, els⟩ := cf
  have hsect : (classify0_full (lcLower line.data)).1 = sect := by rw [← hcf]
  simp only [hsect]
  simp only at h ⊢
  split at h
  · cases h
  · injection h with h
    subst h
    refine ⟨?_, ?_, ?_⟩
    case refine_3 => rfl
    · by_cases hs : sect = "head"
      · subst hs
        rw [if_pos rfl]
        have hdup : ¬ ((("head" : String) = "indi" ∨ ("head" : String) = "fam") ∧
            (⟨lcLower line.data⟩ : String) ∈ st.lines_found) := by
          rintro ⟨h1 | h1, -⟩ <;> exact absurd h1 (by decide)
        dsimp only
        rw [if_neg hdup]
        simp [fupdate]
      · rw [if_neg hs]
        dsimp only
        split
        · simp
        · have hne : ¬ (("head" : String) = sect) := fun hh => hs hh.symm
          simp only [fupdate, if_neg hne]
          simp
    · by_cases hs : sect = "trlr"
      · subst hs
        rw [if_pos rfl]
        have hdup : ¬ ((("trlr" : String) = "indi" ∨ ("trlr" : String) = "fam") ∧
            (⟨lcLower line.data⟩ : String) ∈ st.lines_found) := by
          rintro ⟨h1 | h1, -⟩ <;> exact absurd h1 (by decide)
        dsimp only
        rw [if_neg hdup]
        simp [fupdate]
      · rw [if_neg hs]
        dsimp only
        split
        · simp
        · have hne : ¬ (("trlr" : String) = sect) := fun hh => hs hh.symm
          simp only [fupdate, if_neg hne]
          simp

/-- Effect of one level-1..5 line: record counts and the final section
are untouched (the appended node goes inside an existing record). -/
theorem processSub_ok_effects {st st' : ReaderState} {d : Nat} {line : String}
    (h : processSub st (d + 1) line = .ok st') :
    (st'.secFun "head").length = (st.secFun "head").length ∧
    (st'.secFun "trlr").length = (st.secFun "trlr").length ∧
    st'.final_section = st.final_section := by
  unfold processSub at h
  split at h
  · injection h with h; subst h; exact ⟨rfl, rfl, rfl⟩
  · split at h
    · split at h
      · rename_i ts hts
        injection h with h
        subst h
        have hlen := append_at_depth_length hts
        refine ⟨?_, ?_, rfl⟩
        · dsimp only
          by_cases hk : ("head" : String) = st.sect
          · simp only [fupdate, if_pos hk]
            rw [hlen, hk]
          · simp only [fupdate, if_neg hk]
        · dsimp only
          by_cases hk : ("trlr" : String) = st.sect
          · simp only [fupdate, if_pos hk]
            rw [hlen, hk]
          · simp only [fupdate, if_neg hk]
      · cases h
    · cases h

/-- Effect of one arbitrary (normalized) line. -/
theorem processLine_ok_effects {st st' : ReaderState} {line : String}
    (h : processLine st line = .ok st') :
    (st'.secFun "head").length = (st.secFun "head").length +
      (if level0class line = some "head" then 1 else 0) ∧
    (st'.secFun "trlr").length = (st.secFun "trlr").length +
      (if level0class line = some "trlr" then 1 else 0) ∧
    st'.final_section = (level0class line).getD st.final_section := by
  unfold processLine at h
  split at h
  · rename_i hb
    injection h with h; subst h
    have hcl : level0class line = none := by
      rw [hb]; rfl
    simp [hcl]
  · rename_i hb0
    split at h
    · rename_i h0
      have hcl : level0class line = some (classify0 (lcLower line.data)) := by
        unfold level0class; rw [if_pos h0]
      obtain ⟨e1, e2, e3⟩ := process0_ok_effects h
      rw [hcl]
      simp only [Option.some.injEq, Option.getD_some]
      exact ⟨e1, e2, e3⟩
    · rename_i hn0
      have hcl : level0class line = none := by
        unfold level0class; rw [if_neg hn0]
      rw [hcl]
      simp only [Option.getD_none]
      split at h
      · obtain ⟨e1, e2, e3⟩ := @processSub_ok_effects _ _ 0 _ h
        simpa using ⟨e1, e2, e3⟩
      · split at h
        · obtain ⟨e1, e2, e3⟩ := @processSub_ok_effects _ _ 1 _ h
          simpa using ⟨e1, e2, e3⟩
        · split at h
          · obtain ⟨e1, e2, e3⟩ := @processSub_ok_effects _ _ 2 _ h
            simpa using ⟨e1, e2, e3⟩
          · split at h
            · obtain ⟨e1, e2, e3⟩ := @processSub_ok_effects _ _ 3 _ h
              simpa using ⟨e1, e2, e3⟩
            · split at h
              · obtain ⟨e1, e2, e3⟩ := @processSub_ok_effects _ _ 4 _ h
                simpa using ⟨e1, e2, e3⟩
              · injection h with h; subst h
                simp

/-- Default of the last element of a cons list, peeling the head. -/
theorem getLastD_cons {α : Type} (c d : α) (xs : List α) :
    ((c :: xs).getLast?).getD d = (xs.getLast?).getD c := by
  cases xs with
  | nil => rfl
  | cons y ys =>
    rw [List.getLast?_cons_cons]
    cases hg : (y :: ys).getLast? with
    | none => simp at hg
    | some a => rfl

/-- Fold invariant of the read loop: the head and trailer record counts
equal the number of level-0 lines classified to them, and the tracked
final section is the last level-0 classification. -/
theorem run_reader_lines_counts :
    ∀ (lines : List String) (st st' : ReaderState),
      run_reader_lines st lines = .ok st' →
      (st'.secFun "head").length = (st.secFun "head").length +
        ((lines.filterMap level0class).filter (fun s => s = "head")).length ∧
      (st'.secFun "trlr").length = (st.secFun "trlr").length +
        ((lines.filterMap level0class).filter (fun s => s = "trlr")).length ∧
      st'.final_section = ((lines.filterMap level0class).getLast?).getD st.final_section
  | [], st, st', h => by
    injection h with h
    subst h
    simp
  | l :: rest, st, st', h => by
    cases hpl : processLine st l with
    | error e => simp only [run_reader_lines, hpl] at h; cases h
    | ok st1 =>
      simp only [run_reader_lines, hpl] at h
      obtain ⟨e1, e2, e3⟩ := processLine_ok_effects hpl
      obtain ⟨f1, f2, f3⟩ := run_reader_lines_counts rest st1 st' h
      refine ⟨?_, ?_, ?_⟩
      · rw [f1, e1]
        cases hc : level0class l with
        | none => simp [List.filterMap_cons, hc]
        | some c =>
          by_cases hch : c = "head" <;>
            simp [List.filterMap_cons, hc, hch] <;> omega
      · rw [f2, e2]
        cases hc : level0class l with
        | none => simp [List.filterMap_cons, hc]
        | some c =>
          by_cases hch : c = "trlr" <;>
            simp [List.filterMap_cons, hc, hch] <;> omega
      · rw [f3, e3]
        cases hc : level0class l with
        | none => simp [List.filterMap_cons, hc]
        | some c =>
          simp only [List.filterMap_cons, hc, Option.getD_some]
          exact (getLastD_cons c st.final_section _).symm

/-- C8: reading raises the final-section error whenever the last
top-level section of the input is not the trailer; the checked read
fails with some fatal error whenever the header or the trailer does not
occur exactly once; and when the header occurs once, the trailer occurs
once and the physically last section is the trailer, none of these three
errors is raised (comparisons follow the code's lowercasing). -/
theorem claim_C8 :
    (∀ (lines : List String) (st : ReaderState),
      run_reader lines = .ok st →
      ¬ ((⟨lcLower (input_final_sect lines).data⟩ : String) = "trlr") →
      read_checked lines = .error .finalNotTrailer) ∧
    (∀ lines : List String, ¬ (count_sections lines "head" = 1) →
      ∃ e, read_checked lines = .error e) ∧
    (∀ lines : List String, ¬ (count_sections lines "trlr" = 1) →
      ∃ e, read_checked lines = .error e) ∧
    (∀ (lines : List String) (st : ReaderState),
      run_reader lines = .ok st →
      (⟨lcLower (input_final_sect lines).data⟩ : String) = "trlr" →
      count_sections lines "head" = 1 →
      count_sections lines "trlr" = 1 →
      ¬ (read_checked lines = .error .finalNotTrailer) ∧
      ¬ (read_checked lines = .error .headerCount) ∧
      ¬ (read_checked lines = .error .trailerCount)) := by
  refine ⟨?_, ?_, ?_, ?_⟩
  · intro lines st hrun hne
    obtain ⟨-, -, hf⟩ :=
      run_reader_lines_counts (normalize_lines lines) initReaderState st hrun
    have hfinal : st.final_section = input_final_sect lines := by rw [hf]; rfl
    have hrid : read_in_data lines = .error .finalNotTrailer := by
      simp only [read_in_data, hrun]
      rw [hfinal, if_neg hne]
    simp only [read_checked, hrid]
  · intro lines hcount
    cases hrr : run_reader lines with
    | error e =>
      exact ⟨e, by simp only [read_checked, read_in_data, hrr]⟩
    | ok st =>
      obtain ⟨hh, -, -⟩ :=
        run_reader_lines_counts (normalize_lines lines) initReaderState st hrr
      have hhc : (st.secFun "head").length = count_sections lines "head" := by
        simpa [initReaderState, count_sections, input_sections] using hh
      by_cases hfin : (⟨lcLower st.final_section.data⟩ : String) = "trlr"
      · refine ⟨.headerCount, ?_⟩
        have hrid : read_in_data lines = .ok st := by
          simp only [read_in_data, hrr]
          rw [if_pos hfin]
        simp only [read_checked, hrid]
        rw [if_pos (by rw [hhc]; exact hcount)]
      · refine ⟨.finalNotTrailer, ?_⟩
        have hrid : read_in_data lines = .error .finalNotTrailer := by
          simp only [read_in_data, hrr]
          rw [if_neg hfin]
        simp only [read_checked, hrid]
  · intro lines hcount
    cases hrr : run_reader lines with
    | error e =>
      exact ⟨e, by simp only [read_checked, read_in_data, hrr]⟩
    | ok st =>
      obtain ⟨-, ht, -⟩ :=
        run_reader_lines_counts (normalize_lines lines) initReaderState st hrr
      have htc : (st.secFun "trlr").length = count_sections lines "trlr" := by
        simpa [initReaderState, count_sections, input_sections] using ht
      by_cases hfin : (⟨lcLower st.final_section.data⟩ : String) = "trlr"
      · have hrid : read_in_data lines = .ok st := by
          simp only [read_in_data, hrr]
          rw [if_pos hfin]
        by_cases hh1 : (st.secFun "head").length = 1
        · refine ⟨.trailerCount, ?_⟩
          simp only [read_checked, hrid]
          rw [if_neg (not_not_intro hh1), if_pos (by rw [htc]; exact hcount)]
        · refine ⟨.headerCount, ?_⟩
          simp only [read_checked, hrid]
          rw [if_pos hh1]
      · refine ⟨.finalNotTrailer, ?_⟩
        have hrid : read_in_data lines = .error .finalNotTrailer := by
          simp only [read_in_data, hrr]
          rw [if_neg hfin]
        simp only [read_checked, hrid]
  · intro lines st hrun hfin hch hct
    obtain ⟨hh, ht, hf⟩ :=
      run_reader_lines_counts (normalize_lines lines) initReaderState st hrun
    have hfinal : st.final_section = input_final_sect lines := by rw [hf]; rfl
    have hfin' : (⟨lcLower st.final_section.data⟩ : String) = "trlr" := by
      rw [hfinal]; exact hfin
    have hrid : read_in_data lines = .ok st := by
      simp only [read_in_data, hrun]
      rw [if_pos hfin']
    have hh1 : (st.secFun "head").length = 1 := by
      have e : (st.secFun "head").length = count_sections lines "head" := by
        simpa [initReaderState, count_sections, input_sections] using hh
      rw [e]; exact hch
    have ht1 : (st.secFun "trlr").length = 1 := by
      have e : (st.secFun "trlr").length = count_sections lines "trlr" := by
        simpa [initReaderState, count_sections, input_sections] using ht
      rw [e]; exact hct
    have hres : read_checked lines = .error .noIndividuals ∨
        ∃ st', read_checked lines = .ok st' := by
      simp only [read_checked, hrid]
      rw [if_neg (not_not_intro hh1), if_neg (not_not_intro ht1)]
      split
      · exact Or.inl rfl
      · split
        · exact Or.inr ⟨_, rfl⟩
        · exact Or.inr ⟨_, rfl⟩
    rcases hres with hres | ⟨st', hres⟩ <;> refine ⟨?_, ?_, ?_⟩ <;> rw [hres] <;> simp

/-- Witness for C8 at a concrete input: a file holding only a trailer
line has no header, and the checked read fails. -/
theorem claim_C8_witness : ∃ e, read_checked ["0 TRLR"] = .error e :=
  claim_C8.2.1 ["0 TRLR"] (by decide)

/-- Flattening distributes over appending tree lists. -/
theorem output_section_append :
    ∀ a b : List LineTree, output_section (a ++ b) = output_section a ++ output_section b
  | [], _ => rfl
  | t :: rest, b => by
    show output_sub_section t ++ output_section (rest ++ b) =
      (output_sub_section t ++ output_section rest) ++ output_section b
    rw [output_section_append rest b, List.append_assoc]

/-- A tree list is its front part plus its last element. -/
theorem lastTree_dropLast_eq :
    ∀ {ts : List LineTree} {last : LineTree}, lastTree ts = some last →
      dropLastTree ts ++ [last] = ts
  | [], _, h => by cases h
  | [t], _, h => by
    injection h with h
    subst h
    rfl
  | t :: t' :: rest, last, h => by
    have ih := @lastTree_dropLast_eq (t' :: rest) last h
    show t :: (dropLastTree (t' :: rest) ++ [last]) = t :: t' :: rest
    rw [ih]

/-- Appending a leaf along the most-recent path extends the section's
flattened output by exactly that line. -/
theorem output_section_append_at_depth :
    ∀ {d : Nat} {ts : List LineTree} {t : LineTree} {ts' : List LineTree},
      append_at_depth d ts t = some ts' → t.sub = [] →
      output_section ts' = output_section ts ++ [t.inLine]
  | 0, ts, t, ts', h, hsub => by
    injection h with h
    subst h
    rw [output_section_append]
    cases t with
    | mk i tg v sub p =>
      simp only [LineTree.sub] at hsub
      subst hsub
      rfl
  | d + 1, ts, t, ts', h, hsub => by
    cases hl : lastTree ts with
    | none => simp only [append_at_depth, hl] at h; cases h
    | some last =>
      cases ha : append_at_depth d last.sub t with
      | none => simp only [append_at_depth, hl, ha] at h; cases h
      | some s =>
        simp only [append_at_depth, hl, ha, Option.some.injEq] at h
        subst h
        have ih := output_section_append_at_depth ha hsub
        have hts := lastTree_dropLast_eq hl
        conv_rhs => rw [← hts]
        rw [output_section_append, output_section_append]
        cases last with
        | mk i tg v sub p =>
          simp only [LineTree.withSub, LineTree.sub] at ih ⊢
          simp only [output_section, output_sub_section, ih]
          simp

/-- Updating a key outside a name list leaves its flattened output
untouched. -/
theorem map_out_fupdate_of_not_mem (f : String → List LineTree) (c : String)
    (v : List LineTree) :
    ∀ names : List String, c ∉ names →
      names.map (fun s => output_section (fupdate f c v s)) =
        names.map (fun s => output_section (f s))
  | [], _ => rfl
  | n :: rest, h => by
    have hne : ¬ (n = c) := fun hh => h (hh ▸ List.mem_cons_self n rest)
    have h' : c ∉ rest := fun hm => h (List.mem_cons_of_mem _ hm)
    simp only [List.map_cons]
    rw [map_out_fupdate_of_not_mem f c v rest h']
    simp only [fupdate, if_neg hne]

/-- A run of empty sections flattens to nothing. -/
theorem flatten_out_empty (f : String → List LineTree) :
    ∀ names : List String, (∀ s ∈ names, f s = []) →
      (names.map (fun s => output_section (f s))).flatten = []
  | [], _ => rfl
  | n :: rest, h => by
    simp only [List.map_cons, List.flatten_cons, h n (List.mem_cons_self n rest),
      flatten_out_empty f rest (fun s hs => h s (List.mem_cons_of_mem _ hs))]
    rfl

/-- Splitting the canonical section list at one of its members: the
member sits at its index, appears on neither side, everything after it
has a strictly larger index, and everything of larger index is after
it. -/
theorem sec_split (c : String) (hc : c ∈ SECTION_NAMES) :
    SECTION_NAMES =
      SECTION_NAMES.take (sec_index c) ++ c :: SECTION_NAMES.drop (sec_index c + 1) ∧
    c ∉ SECTION_NAMES.take (sec_index c) ∧
    c ∉ SECTION_NAMES.drop (sec_index c + 1) ∧
    (∀ s ∈ SECTION_NAMES.drop (sec_index c + 1), sec_index c < sec_index s) ∧
    (∀ s ∈ SECTION_NAMES, sec_index c < sec_index s →
      s ∈ SECTION_NAMES.drop (sec_index c + 1)) := by
  fin_cases hc <;>
    exact ⟨by decide, by decide, by decide, by decide, by decide⟩

/-- The central output step: replacing section `c`'s contents with a
version whose flattening gained one line, while every section after `c`
is empty, extends the canonical flattened output by that line. -/
theorem outJoin_update (f : String → List LineTree) (c : String) (v : List LineTree)
    (x : String) (hc : c ∈ SECTION_NAMES)
    (houts : output_section v = output_section (f c) ++ [x])
    (hpostE : ∀ s ∈ SECTION_NAMES, sec_index c < sec_index s → f s = []) :
    (SECTION_NAMES.map (fun s => output_section (fupdate f c v s))).flatten =
      (SECTION_NAMES.map (fun s => output_section (f s))).flatten ++ [x] := by
  obtain ⟨hsplit, hcpre, hcpost, hlt, -⟩ := sec_split c hc
  have hpost : ∀ s ∈ SECTION_NAMES.drop (sec_index c + 1), f s = [] := by
    intro s hs
    have hsmem : s ∈ SECTION_NAMES := by
      rw [hsplit]
      exact List.mem_append_right _ (List.mem_cons_of_mem _ hs)
    exact hpostE s hsmem (hlt s hs)
  rw [hsplit]
  simp only [List.map_append, List.map_cons, List.flatten_append, List.flatten_cons]
  rw [map_out_fupdate_of_not_mem f c v _ hcpre, map_out_fupdate_of_not_mem f c v _ hcpost]
  have hcc : fupdate f c v c = v := by simp [fupdate]
  rw [hcc, houts, flatten_out_empty f _ hpost]
  simp [List.append_assoc]

/-- Full effect of a level-0 line whose lowercased text is fresh (no
duplicate header) and whose section is already a dict key: the tokenized
line is appended to its section, the cursor moves there, and nothing
else observable to the writer changes. -/
theorem process0_ok_detail {st st' : ReaderState} {line : String}
    (h : process0 st line = .ok st')
    (hfresh : ¬ ((⟨lcLower line.data⟩ : String) ∈ st.lines_found))
    (hkeys : classify0 (lcLower line.data) ∈ st.secKeys) :
    st'.secFun = fupdate st.secFun (classify0 (lcLower line.data))
      (st.secFun (classify0 (lcLower line.data)) ++ [line_values line]) ∧
    st'.secKeys = st.secKeys ∧
    st'.sect = classify0 (lcLower line.data) ∧
    st'.ignore_line = false ∧
    (∀ x ∈ st'.lines_found, x ∈ st.lines_found ∨ x = (⟨lcLower line.data⟩ : String)) := by
  simp only [process0] at h
  simp only [classify0] at hkeys ⊢
  set cf := classify0_full (lcLower line.data) with hcf
  clear_value cf
  obtain ⟨sect, els⟩ := cf
  have hsect : (classify0_full (lcLower line.data)).1 = sect := by rw [← hcf]
  simp only [hsect] at hkeys ⊢
  simp only at h ⊢
  split at h
  · cases h
  · injection h with h
    subst h
    have hdup : ¬ ((sect = "indi" ∨ sect = "fam") ∧
        (⟨lcLower line.data⟩ : String) ∈ st.lines_found) := fun hc => hfresh hc.2
    have hkeys2 : ¬ (els = true ∧ sect ∉ st.secKeys) := fun hc => hc.2 hkeys
    refine ⟨?_, ?_, rfl, ?_, ?_⟩
    · dsimp only
      rw [if_neg hdup]
    · dsimp only
      rw [if_neg hkeys2]
    · dsimp only
      simp [hdup]
    · dsimp only
      split
      · intro x hx
        rcases List.mem_append.mp hx with hx | hx
        · exact Or.inl hx
        · simp at hx
          exact Or.inr hx
      · intro x hx
        exact Or.inl hx

/-- Full effect of a level-1..5 line (not under an ignored header): the
tokenized line goes inside the current section, whose key exists. -/
theorem processSub_ok_detail {st st' : ReaderState} {d : Nat} {line : String}
    (h : processSub st d line = .ok st') (hig : st.ignore_line = false) :
    st.sect ∈ st.secKeys ∧
    ∃ ts', append_at_depth d (st.secFun st.sect) (line_values line) = some ts' ∧
      st' = { st with secFun := fupdate st.secFun st.sect ts' } := by
  unfold processSub at h
  rw [hig] at h
  simp only [Bool.false_eq_true, if_false] at h
  split at h
  · rename_i hmem
    split at h
    · rename_i ts hts
      injection h with h
      refine ⟨hmem, ts, hts, ?_⟩
      rw [show st.ignore_line = false from hig]
      exact h.symm
    · cases h
  · cases h

/-- Core round-trip induction: starting from a state whose key set is
canonical, whose duplicate-tracking is consistent with the remaining
lines, and whose sections after the cursor are all empty, reading a
non-blank, leveled, known-section, duplicate-free and canonically
ordered remainder appends exactly those lines to the flattened output. -/
theorem reader_out_aux :
    ∀ (rest : List String) (st st' : ReaderState),
      run_reader_lines st rest = .ok st' →
      (∀ l ∈ rest, ¬ (l = "") ∧ line_leveled l = true) →
      (∀ l ∈ rest, ∀ c, level0class l = some c → c ∈ SECTION_NAMES) →
      (∀ c ∈ rest.filterMap level0class,
        st.sect = "?" ∨ sec_index st.sect ≤ sec_index c) →
      List.Pairwise (fun a b => sec_index a ≤ sec_index b)
        (rest.filterMap level0class) →
      (∀ l ∈ rest, (level0class l).isSome = true →
        ¬ ((⟨lcLower l.data⟩ : String) ∈ st.lines_found)) →
      (input_level0_lcs rest).Nodup →
      st.secKeys = SECTION_NAMES →
      st.ignore_line = false →
      (∀ s ∈ SECTION_NAMES, (st.sect = "?" ∨ sec_index st.sect < sec_index s) →
        st.secFun s = []) →
      outJoin st' = outJoin st ++ rest ∧ st'.secKeys = SECTION_NAMES
  | [], st, st', h, _, _, _, _, _, _, hkeys, _, _ => by
    injection h with h
    subst h
    exact ⟨by simp, hkeys⟩
  | l :: rest, st, st', h, H1, H2, Hord, Hpair, H4, H5, hkeys, hig, He => by
    obtain ⟨hne, hlev⟩ := H1 l (List.mem_cons_self l rest)
    cases hpl : processLine st l with
    | error e => simp only [run_reader_lines, hpl] at h; cases h
    | ok st1 =>
    simp only [run_reader_lines, hpl] at h
    by_cases h0 : lcBegins "0 ".data l.data = true
    · -- a level-0 line
      have hpl0 : process0 st l = .ok st1 := by
        unfold processLine at hpl
        rw [if_neg hne, if_pos h0] at hpl
        exact hpl
      have hc0 : level0class l = some (classify0 (lcLower l.data)) := by
        unfold level0class
        rw [if_pos h0]
      have hcmem : classify0 (lcLower l.data) ∈ (l :: rest).filterMap level0class := by
        simp [List.filterMap_cons, hc0]
      have hcS : classify0 (lcLower l.data) ∈ SECTION_NAMES :=
        H2 l (List.mem_cons_self l rest) _ hc0
      have hfresh := H4 l (List.mem_cons_self l rest) (by rw [hc0]; rfl)
      obtain ⟨e_secFun, e_keys, e_sect, e_ig, e_found⟩ :=
        process0_ok_detail hpl0 hfresh (by rw [hkeys]; exact hcS)
      have hcq : ¬ (classify0 (lcLower l.data) = "?") := by
        intro hq
        rw [hq] at hcS
        exact absurd hcS (by decide)
      have hout1 : outJoin st1 = outJoin st ++ [l] := by
        unfold outJoin
        rw [e_secFun]
        refine outJoin_update st.secFun _ _ l hcS ?_ ?_
        · rw [output_section_append]
          simp [output_section, output_sub_section, line_values]
        · intro s hsm hlt
          refine He s hsm ?_
          rcases Hord _ hcmem with hq | hq
          · exact Or.inl hq
          · exact Or.inr (lt_of_le_of_lt hq hlt)
      have hlcs : input_level0_lcs (l :: rest) =
          (⟨lcLower l.data⟩ : String) :: input_level0_lcs rest := by
        unfold input_level0_lcs
        simp [List.filterMap_cons, hc0]
      have hclasses : (l :: rest).filterMap level0class =
          classify0 (lcLower l.data) :: rest.filterMap level0class := by
        simp [List.filterMap_cons, hc0]
      rw [hclasses] at Hpair
      obtain ⟨Hfirst, Hpair'⟩ := List.pairwise_cons.mp Hpair
      rw [hlcs] at H5
      obtain ⟨Hfr, H5'⟩ := List.nodup_cons.mp H5
      obtain ⟨hrec, hkeysF⟩ :=
        reader_out_aux rest st1 st' h
          (fun x hx => H1 x (List.mem_cons_of_mem _ hx))
          (fun x hx => H2 x (List.mem_cons_of_mem _ hx))
          (by
            intro c' hc'
            right
            rw [e_sect]
            exact Hfirst c' hc')
          Hpair'
          (by
            intro x hx hsx hmemx
            rcases e_found _ hmemx with hmemx | hmemx
            · exact H4 x (List.mem_cons_of_mem _ hx) hsx hmemx
            · refine Hfr ?_
              rw [← hmemx]
              unfold input_level0_lcs
              exact List.mem_filterMap.mpr ⟨x, hx, by rw [if_pos hsx]⟩)
          H5'
          (by rw [e_keys]; exact hkeys)
          e_ig
          (by
            intro s hsm hcase
            rw [e_secFun]
            rcases hcase with hcase | hcase
            · rw [e_sect] at hcase
              exact absurd hcase hcq
            · rw [e_sect] at hcase
              have hsne : ¬ (s = classify0 (lcLower l.data)) := by
                intro hq
                rw [hq] at hcase
                omega
              rw [fupdate, if_neg hsne]
              refine He s hsm ?_
              rcases Hord _ hcmem with hq | hq
              · exact Or.inl hq
              · exact Or.inr (lt_of_le_of_lt hq hcase))
      refine ⟨?_, hkeysF⟩
      rw [hrec, hout1]
      simp
    · -- a level 1..5 line
      have hc0 : level0class l = none := by
        unfold level0class
        rw [if_neg h0]
      have hsub : ∃ k : Nat, processSub st (k + 1) l = .ok st1 := by
        unfold processLine at hpl
        rw [if_neg hne, if_neg h0] at hpl
        split at hpl
        · exact ⟨0, hpl⟩
        · split at hpl
          · exact ⟨1, hpl⟩
          · split at hpl
            · exact ⟨2, hpl⟩
            · split at hpl
              · exact ⟨3, hpl⟩
              · split at hpl
                · exact ⟨4, hpl⟩
                · exfalso
                  rename_i hb1 hb2 hb3 hb4 hb5
                  unfold line_leveled at hlev
                  rw [Bool.or_eq_true, Bool.or_eq_true, Bool.or_eq_true,
                    Bool.or_eq_true, Bool.or_eq_true] at hlev
                  rcases hlev with ((((hx | hx) | hx) | hx) | hx) | hx
                  · exact h0 hx
                  · exact hb1 hx
                  · exact hb2 hx
                  · exact hb3 hx
                  · exact hb4 hx
                  · exact hb5 hx
      obtain ⟨k, hps⟩ := hsub
      obtain ⟨hmem, ts', hts, hstEq⟩ := processSub_ok_detail hps hig
      have hsectS : st.sect ∈ SECTION_NAMES := by rw [← hkeys]; exact hmem
      have hq : ¬ (st.sect = "?") := by
        intro hh
        rw [hh] at hsectS
        exact absurd hsectS (by decide)
      have hout1 : outJoin st1 = outJoin st ++ [l] := by
        rw [hstEq]
        unfold outJoin
        dsimp only
        refine outJoin_update st.secFun st.sect ts' l hsectS ?_ ?_
        · have hres := output_section_append_at_depth hts (by rfl)
          simpa [line_values, LineTree.inLine] using hres
        · intro s hsm hlt
          exact He s hsm (Or.inr hlt)
      have hclasses : (l :: rest).filterMap level0class =
          rest.filterMap level0class := by
        simp [List.filterMap_cons, hc0]
      rw [hclasses] at Hpair
      have hlcs : input_level0_lcs (l :: rest) = input_level0_lcs rest := by
        unfold input_level0_lcs
        simp [List.filterMap_cons, hc0]
      rw [hlcs] at H5
      obtain ⟨hrec, hkeysF⟩ :=
        reader_out_aux rest st1 st' h
          (fun x hx => H1 x (List.mem_cons_of_mem _ hx))
          (fun x hx => H2 x (List.mem_cons_of_mem _ hx))
          (by
            intro c' hc'
            rw [hstEq]
            exact Hord c' (by rw [hclasses]; exact hc'))
          Hpair
          (by
            intro x hx hsx
            rw [hstEq]
            exact H4 x (List.mem_cons_of_mem _ hx) hsx)
          H5
          (by rw [hstEq]; exact hkeys)
          (by rw [hstEq]; exact hig)
          (by
            intro s hsm hcase
            rw [hstEq] at hcase ⊢
            dsimp only at hcase ⊢
            rcases hcase with hcase | hcase
            · exact absurd hcase hq
            · have hsne : ¬ (s = st.sect) := by
                intro hqq
                rw [hqq] at hcase
                omega
              rw [fupdate, if_neg hsne]
              exact He s hsm (Or.inr hcase))
      refine ⟨?_, hkeysF⟩
      rw [hrec, hout1]
      simp

/-- With the canonical key set (no unknown section collected), the
writer's output is the canonical flattened join. -/
theorem output_original_eq_join (st : ReaderState)
    (ha : st.secKeys = SECTION_NAMES) :
    output_original st = outJoin st := by
  unfold output_original outJoin
  rw [ha]
  have h1 : SECTION_NAMES.filter (fun s => s ∉ SECTION_NAMES) = [] := by decide
  rw [h1]
  have h2 : SECTION_NAMES.filter (fun s => ¬ (s = "trlr")) =
      ["head", "subm", "indi", "fam", "obje", "repo", "snote", "sour",
       "_evdef", "_todo", "_plac_defn", "_event_defn"] := by decide
  rw [h2]
  show _ ++ [] ++ _ = _
  simp only [List.append_nil, SECTION_NAMES, List.map_cons, List.map_nil,
    List.flatten_cons, List.flatten_nil, List.append_assoc, List.append_nil]

/-- A successful checked read comes from a successful raw read with the
same sections and key set (only warnings may differ). -/
theorem read_checked_ok_parts {lines : List String} {st : ReaderState}
    (h : read_checked lines = .ok st) :
    ∃ st0, run_reader lines = .ok st0 ∧
      st.secFun = st0.secFun ∧ st.secKeys = st0.secKeys := by
  cases hrr : run_reader lines with
  | error e =>
    have hrid : read_in_data lines = .error e := by simp only [read_in_data, hrr]
    simp only [read_checked, hrid] at h
    cases h
  | ok st0 =>
    by_cases hfin : (⟨lcLower st0.final_section.data⟩ : String) = "trlr"
    · have hrid : read_in_data lines = .ok st0 := by
        simp only [read_in_data, hrr]
        rw [if_pos hfin]
      refine ⟨st0, rfl, ?_⟩
      simp only [read_checked, hrid] at h
      split at h
      · cases h
      · split at h
        · cases h
        · split at h
          · cases h
          · split at h
            · injection h with h
              subst h
              exact ⟨rfl, rfl⟩
            · injection h with h
              subst h
              exact ⟨rfl, rfl⟩
    · have hrid : read_in_data lines = .error .finalNotTrailer := by
        simp only [read_in_data, hrr]
        rw [if_neg hfin]
      simp only [read_checked, hrid] at h
      cases h

/-- C6 (amended): for every input in normalized form (no tabs, stripped,
no lead characters, non-blank, леveled lines), whose level-0 lines all
select standard sections, carry no duplicate headers, and appear grouped
in the canonical section order, a read accepted by the structural checks
round-trips: the original writer reproduces the input lines exactly. -/
theorem claim_C6 (lines : List String)
    (hnorm : normalize_lines lines = lines)
    (hwf : ∀ l ∈ lines, ¬ (l = "") ∧ line_leveled l = true)
    (hknown : ∀ l ∈ lines, ∀ c, level0class l = some c → c ∈ SECTION_NAMES)
    (hsorted : List.Pairwise (fun a b => sec_index a ≤ sec_index b)
      (lines.filterMap level0class))
    (hnodup : (input_level0_lcs lines).Nodup)
    (hok : except_is_ok (read_checked lines) = true) :
    Except.map output_original (read_checked lines) = .ok lines := by
  cases hrc : read_checked lines with
  | error e => rw [hrc] at hok; cases hok
  | ok st =>
    obtain ⟨st0, hrr, hsf, hsk⟩ := read_checked_ok_parts hrc
    have hrun : run_reader_lines initReaderState lines = .ok st0 := by
      have : run_reader lines = .ok st0 := hrr
      unfold run_reader at this
      rw [hnorm] at this
      exact this
    obtain ⟨hout, hkeys⟩ :=
      reader_out_aux lines initReaderState st0 hrun hwf hknown
        (fun c _ => Or.inl rfl)
        hsorted
        (fun l _ _ hm => by simp [initReaderState] at hm)
        hnodup
        rfl
        rfl
        (fun s _ _ => rfl)
    have houtST : output_original st = lines := by
      have e1 : output_original st = output_original st0 := by
        unfold output_original
        rw [hsf, hsk]
      rw [e1, output_original_eq_join st0 hkeys, hout]
      have : outJoin initReaderState = [] := by
        unfold outJoin
        exact flatten_out_empty _ _ (fun s _ => rfl)
      rw [this]
      rfl
    rw [Except.map, houtST]

/-- Witness for the amended C6: a canonically ordered file round-trips
through the reader and the original writer verbatim. -/
theorem claim_C6_witness :
    Except.map output_original (read_checked ex6canonical) = .ok ex6canonical :=
  claim_C6 ex6canonical (by decide) (by decide) (by decide) (by decide)
    (by decide) (by decide)

/-- C6 counterexample: `ex6lines` is accepted by the reader and the
structural checks (header once, trailer once and last, an individual
with an existing family), but the writer regroups its sections into
canonical order, so the output differs from the input. -/
theorem claim_C6_counterexample :
    Except.map output_original (read_checked ex6lines) = .ok ex6output ∧
    ¬ (ex6output = ex6lines) :=
  ⟨by decide, by decide⟩

/-! ### C9: implicit `date` subtag of event queries -/

/-- A filter whose predicate rejects every element yields the empty list. -/
theorem filter_all_false {α : Type} (p : α → Bool) :
    ∀ l : List α, (∀ a ∈ l, p a = false) → l.filter p = []
  | [], _ => rfl
  | x :: xs, h => by
    rw [List.filter_cons, h x (List.mem_cons_self x xs), if_neg Bool.false_ne_true]
    exact filter_all_false p xs (fun a ha => h a (List.mem_cons_of_mem x ha))

/-- With no subtag, `match_individual` on a standard event tag always
reports no match: the event branch requires a subtag. -/
theorem match_individual_no_subtag {tag : String} (htag : tag ∈ INDI_EVENT_TAGS)
    (ind : Individual) (value op : String) (b : Bool) :
    match_individual ind tag none value op b = false := by
  fin_cases htag <;> rfl

/-- A subtag-less event-tag `value_search` under a non-existence operator
returns the empty id list. -/
theorem value_search_none_empty (data : ParsedData) (tag value op : String) (b : Bool)
    (htag : tag ∈ INDI_EVENT_TAGS)
    (hx1 : op ≠ "exist") (hx2 : op ≠ "!exist") (hx3 : tag ≠ "xref") :
    value_search data tag none value op b = some [] := by
  unfold value_search
  rw [if_neg hx1, if_neg hx2, if_neg hx3]
  have hm : ∀ p ∈ data.individuals,
      (indi_has_tag p.2 tag &&
        match_individual p.2 tag none value op b) = false := by
    intro p _
    rw [match_individual_no_subtag htag]
    exact Bool.and_false _
  rw [filter_all_false _ data.individuals hm]
  rfl

/-- The implicit subtag stays absent unless the tag is `birt`/`deat` and
the value is an 8-digit all-digit string (non-existence operator). -/
theorem default_date_subtag_none (tag op value : String)
    (h4 : lcHasSub "exist".data op.data = false)
    (h6 : ¬((tag = "birt" ∨ tag = "deat") ∧
        (string_like_int value.data ∧ value.data.length = 8))) :
    default_date_subtag tag none op value = none := by
  unfold default_date_subtag
  by_cases hbd : (none : Option String) = none ∧ (tag = "birt" ∨ tag = "deat")
  · rw [if_pos hbd, h4, if_neg Bool.false_ne_true,
      if_neg (fun hv => h6 ⟨hbd.2, hv⟩)]
  · rw [if_neg hbd]

/-- For `birt`/`deat` with a canonical non-existence operator and an
8-digit all-digit value, the subtag-less query equals the explicit
`.date` query. -/
theorem fi_event_eq_date (data : ParsedData) (value op : String) (b : Bool) (tag : String)
    (h1 : (⟨lcTrim (lcLower op.data)⟩ : String) = op)
    (h2 : alt_operators op = none)
    (h3 : op ∈ OPERATORS)
    (h4 : lcHasSub "exist".data op.data = false)
    (h5 : tag = "birt" ∨ tag = "deat")
    (hv : string_like_int value.data ∧ value.data.length = 8) :
    find_individuals data tag value op b = find_individuals data (tag ++ ".date") value op b := by
  have hop2 : fi_norm_op op = op := by unfold fi_norm_op; rw [h2]
  obtain rfl | rfl := h5
  · unfold find_individuals
    rw [h1, hop2]
    unfold fi_main
    rw [if_pos h3, if_pos h3]
    show value_search data "birt" (default_date_subtag "birt" none op value) value op b
       = value_search data "birt" (default_date_subtag "birt" (some "date") op value) value op b
    have d1 : default_date_subtag "birt" none op value = some "date" := by
      unfold default_date_subtag
      rw [if_pos ⟨rfl, Or.inl rfl⟩, h4, if_neg Bool.false_ne_true, if_pos hv]
    have d2 : default_date_subtag "birt" (some "date") op value = some "date" := rfl
    rw [d1, d2]
  · unfold find_individuals
    rw [h1, hop2]
    unfold fi_main
    rw [if_pos h3, if_pos h3]
    show value_search data "deat" (default_date_subtag "deat" none op value) value op b
       = value_search data "deat" (default_date_subtag "deat" (some "date") op value) value op b
    have d1 : default_date_subtag "deat" none op value = some "date" := by
      unfold default_date_subtag
      rw [if_pos ⟨rfl, Or.inr rfl⟩, h4, if_neg Bool.false_ne_true, if_pos hv]
    have d2 : default_date_subtag "deat" (some "date") op value = some "date" := rfl
    rw [d1, d2]

/-- Reduction of `find_individuals` to `value_search` for a canonical
operator and a canonical, non-relational, dot-free search tag. -/
theorem fi_reduce (data : ParsedData) (tag value op : String) (b : Bool)
    (h1 : (⟨lcTrim (lcLower op.data)⟩ : String) = op)
    (h2 : alt_operators op = none)
    (h3 : op ∈ OPERATORS)
    (ht1 : (⟨lcTrim (lcLower tag.data)⟩ : String) = tag)
    (ht2 : tag ≠ "")
    (ht3 : is_relation_tag tag = false)
    (ht4 : resolve_search_tag tag = some (tag, none)) :
    find_individuals data tag value op b
      = value_search data tag (default_date_subtag tag none op value) value op b := by
  have hop2 : fi_norm_op op = op := by unfold fi_norm_op; rw [h2]
  unfold find_individuals
  rw [h1, hop2, ht1]
  unfold fi_main
  rw [if_pos h3, if_neg ht2, ht4]
  show (if is_relation_tag tag = true then some (relation_search data tag value)
        else value_search data tag (default_date_subtag tag none op value) value op b)
      = value_search data tag (default_date_subtag tag none op value) value op b
  rw [ht3, if_neg Bool.false_ne_true]

/-- Every other subtag-less event query under a non-existence operator
returns the empty list (it is not an existence check). -/
theorem fi_event_empty (data : ParsedData) (value op : String) (b : Bool) (tag : String)
    (h1 : (⟨lcTrim (lcLower op.data)⟩ : String) = op)
    (h2 : alt_operators op = none)
    (h3 : op ∈ OPERATORS)
    (h4 : lcHasSub "exist".data op.data = false)
    (h5 : tag ∈ INDI_EVENT_TAGS)
    (h6 : ¬((tag = "birt" ∨ tag = "deat") ∧
        (string_like_int value.data ∧ value.data.length = 8))) :
    find_individuals data tag value op b = some [] := by
  have hne1 : op ≠ "exist" := fun h => by rw [h] at h4; exact absurd h4 (by decide)
  have hne2 : op ≠ "!exist" := fun h => by rw [h] at h4; exact absurd h4 (by decide)
  have hts : ((⟨lcTrim (lcLower tag.data)⟩ : String) = tag) ∧ tag ≠ "" ∧
      is_relation_tag tag = false ∧ resolve_search_tag tag = some (tag, none) ∧
      tag ≠ "xref" := by
    fin_cases h5 <;> exact ⟨by decide, by decide, by decide, by decide, by decide⟩
  rw [fi_reduce data tag value op b h1 h2 h3 hts.1 hts.2.1 hts.2.2.1 hts.2.2.2.1]
  rw [default_date_subtag_none tag op value h4 h6]
  exact value_search_none_empty data tag value op b h5 hne1 hne2 hts.2.2.2.2

/-- C9: the claim reads the implicit-`date` defaulting as applying to every
standard event-shaped tag, with an existence-only fallback for non-8-digit
values.  In the code the defaulting applies only to `birt` and `deat`, and
the fallback is an empty result, not an existence check: for every document,
canonical non-existence operator and 8-digit all-digit value, a subtag-less
`birt`/`deat` query equals the explicit `.date` query, while every other
subtag-less standard-event query (and every `birt`/`deat` query with a
non-8-digit value) returns the empty id list. -/
theorem claim_C9 (data : ParsedData) (tag value op : String) (b : Bool)
    (htag : tag ∈ INDI_EVENT_TAGS)
    (hop : op ∈ (["=", "!=", "<", "<=", ">", "=>", "in", "!in"] : List String)) :
    ((tag = "birt" ∨ tag = "deat") →
       ((string_like_int value.data ∧ value.data.length = 8) →
          find_individuals data tag value op b
            = find_individuals data (tag ++ ".date") value op b)
       ∧ (¬(string_like_int value.data ∧ value.data.length = 8) →
          find_individuals data tag value op b = some []))
    ∧ (¬(tag = "birt" ∨ tag = "deat") →
       find_individuals data tag value op b = some []) := by
  have hops : ((⟨lcTrim (lcLower op.data)⟩ : String) = op) ∧ alt_operators op = none ∧
      op ∈ OPERATORS ∧ lcHasSub "exist".data op.data = false := by
    fin_cases hop <;> exact ⟨by decide, by decide, by decide, by decide⟩
  obtain ⟨h1, h2, h3, h4⟩ := hops
  refine ⟨fun htg => ⟨fun hv => ?_, fun hv => ?_⟩, fun htg => ?_⟩
  · exact fi_event_eq_date data value op b tag h1 h2 h3 h4 htg hv
  · exact fi_event_empty data value op b tag h1 h2 h3 h4 htag (fun hc => hv hc.2)
  · exact fi_event_empty data value op b tag h1 h2 h3 h4 htag (fun hc => htg hc.1)

/-- C9 witness: on the concrete one-individual document, a subtag-less
`buri` query for `19000101` returns no ids, and the subtag-less `deat`
query for `19000101` equals the explicit `deat.date` query. -/
theorem claim_C9_witness :
    find_individuals c9data "buri" "19000101" "=" true = some [] ∧
    find_individuals c9data "deat" "19000101" "=" true
      = find_individuals c9data ("deat" ++ ".date") "19000101" "=" true :=
  ⟨(claim_C9 c9data "buri" "19000101" "=" true (by decide) (by decide)).2 (by decide),
   ((claim_C9 c9data "deat" "19000101" "=" true (by decide) (by decide)).1
      (Or.inr rfl)).1 (by decide)⟩

/-- C9 counterexample: the individual has a burial dated `19000101`, yet
the subtag-less `buri` query for that value matches nobody (the explicit
`buri.date` query does match), and a `birt` query with a non-8-digit value
matches nobody although the existence query on the same tag matches. -/
theorem claim_C9_counterexample :
    find_individuals c9data "buri" "19000101" "=" true = some [] ∧
    find_individuals c9data ("buri" ++ ".date") "19000101" "=" true = some ["i1"] ∧
    find_individuals c9data "birt" "never" "=" true = some [] ∧
    find_individuals c9data "birt" "never" "exist" true = some ["i1"] := by
  decide

/-! ### C10: privatized output with all flags off -/

/-- A successful association-list lookup pins down a member pair. -/
theorem slookup_mem {β : Type} {k : String} {v : β} :
    ∀ {l : List (String × β)}, slookup k l = some v → (k, v) ∈ l
  | [], h => by cases h
  | (k2, v2) :: rest, h => by
    by_cases he : k2 = k
    · subst he
      simp only [slookup, if_true] at h
      injection h with h
      subst h
      exact List.mem_cons_self _ _
    · simp only [slookup] at h
      rw [if_neg he] at h
      exact List.mem_cons_of_mem _ (slookup_mem h)

/-- With every parsed individual at level `PRIVATIZE_OFF`, the
individual-section loop of `output_privatized` copies every record
verbatim. -/
theorem out_priv_indi_off (pd : ParsedData) :
    ∀ l : List LineTree,
      (∀ t ∈ l, (slookup (extract_indi_id t.tag) pd.individuals).isSome = true) →
      (∀ p ∈ pd.individuals, p.2.priv = PRIVATIZE_OFF) →
      out_priv_indi_records pd l = some (output_section l)
  | [], _, _ => rfl
  | t :: rest, hres, hoff => by
    have h1 := hres t (List.mem_cons_self _ _)
    cases hx : slookup (extract_indi_id t.tag) pd.individuals with
    | none => rw [hx] at h1; exact absurd h1 (by decide)
    | some ind =>
      have hp : ind.priv = PRIVATIZE_OFF := hoff (extract_indi_id t.tag, ind) (slookup_mem hx)
      have ih := out_priv_indi_off pd rest
        (fun a ha => hres a (List.mem_cons_of_mem _ ha)) hoff
      simp only [out_priv_indi_records]
      rw [hx, ih]
      show some ((if ind.priv = PRIVATIZE_OFF then output_sub_section t
                  else output_privatized_indi t ind.priv ind) ++ output_section rest)
          = some (output_section (t :: rest))
      rw [if_pos hp]
      rfl

/-- With every parsed family at level `PRIVATIZE_OFF`, the
family-section loop of `output_privatized` copies every record
verbatim. -/
theorem out_priv_fam_off (pd : ParsedData) :
    ∀ l : List LineTree,
      (∀ t ∈ l, (slookup (extract_fam_id t.tag) pd.families).isSome = true) →
      (∀ p ∈ pd.families, p.2.priv = PRIVATIZE_OFF) →
      out_priv_fam_records pd l = some (output_section l)
  | [], _, _ => rfl
  | t :: rest, hres, hoff => by
    have h1 := hres t (List.mem_cons_self _ _)
    cases hx : slookup (extract_fam_id t.tag) pd.families with
    | none => rw [hx] at h1; exact absurd h1 (by decide)
    | some f =>
      have hp : f.priv = PRIVATIZE_OFF := hoff (extract_fam_id t.tag, f) (slookup_mem hx)
      have ih := out_priv_fam_off pd rest
        (fun a ha => hres a (List.mem_cons_of_mem _ ha)) hoff
      simp only [out_priv_fam_records]
      rw [hx, ih]
      show some ((if f.priv = PRIVATIZE_OFF then output_sub_section t
                  else output_privatized_fam t f.priv f) ++ output_section rest)
          = some (output_section (t :: rest))
      rw [if_pos hp]
      rfl

/-- C10: when every parsed individual and family carries privatize level
`PRIVATIZE_OFF` (as immediately after reading, or after
`unset_privatize_flag`) and every individual/family record id resolves in
the parsed maps, `output_privatized` writes exactly the lines
`output_original` writes. -/
theorem claim_C10 (st : ReaderState) (pd : ParsedData)
    (hres_i : ∀ t ∈ st.secFun "indi",
      (slookup (extract_indi_id t.tag) pd.individuals).isSome = true)
    (hres_f : ∀ t ∈ st.secFun "fam",
      (slookup (extract_fam_id t.tag) pd.families).isSome = true)
    (hoff_i : ∀ p ∈ pd.individuals, p.2.priv = PRIVATIZE_OFF)
    (hoff_f : ∀ p ∈ pd.families, p.2.priv = PRIVATIZE_OFF) :
    output_privatized st pd = some (output_original st) := by
  unfold output_privatized
  rw [out_priv_indi_off pd (st.secFun "indi") hres_i hoff_i,
      out_priv_fam_off pd (st.secFun "fam") hres_f hoff_f]
  show some (output_privatized_join st (output_section (st.secFun "indi"))
      (output_section (st.secFun "fam"))) = some (output_original st)
  have hmap : ∀ s ∈ SECTION_NAMES.filter (fun s => ¬ (s = "trlr")),
      (if s = "indi" then output_section (st.secFun "indi")
       else if s = "fam" then output_section (st.secFun "fam")
       else output_section (st.secFun s)) = output_section (st.secFun s) := by
    intro s _
    by_cases h1 : s = "indi"
    · rw [if_pos h1, h1]
    · rw [if_neg h1]
      by_cases h2 : s = "fam"
      · rw [if_pos h2, h2]
      · rw [if_neg h2]
  unfold output_privatized_join output_original
  rw [List.map_congr_left hmap]

/-- C10 witness: on the concrete document whose records are fully
privatized, resetting every flag with `unset_privatize_flag` makes the
privatized writer reproduce the original writer exactly. -/
theorem claim_C10_witness :
    output_privatized c10st (unset_privatize_flag c10pd)
      = some (output_original c10st) :=
  claim_C10 c10st (unset_privatize_flag c10pd) (by decide) (by decide) (by decide) (by decide)
